import Mathlib

/-!
# LoRaWAN AT-command driver (`LoRaWAN.cpp`): shallow embedding

Conventions of the embedding.

* A byte (`char`, `uint8_t`) is a `Char`; a C string is the list of its characters
  before the terminating NUL, and a pointer that may be `NULL` is an `Option`.
* Machine counters are `Nat` with the wrap of their width written out
  (`uint8_t` modulo 256, `uint16_t` modulo 65536, `uint32_t` modulo 4294967296).
* A `HardwareSerial` port is a receive FIFO (`available()` is its length, `read()`
  pops its head), the bytes its peer delivers during each millisecond, and the
  list of `write` calls made on it.  Time only passes in `delay`, one millisecond
  at a time, and what the peer delivers during a millisecond joins the FIFO at its
  end; the FIFO is taken to be large enough never to drop a byte.
* The global state is a `World`; `fault` records that the run has left defined
  behaviour (a store outside a buffer, a read of `str_at_commands` outside its
  entries, or a call through a `NULL` port).
* A function that reaches its closing brace without a `return` yields `none`
  as its status.
* Loops that the source does not bound take a fuel argument; `none` as a result
  means the fuel ran out.
-/

namespace LoRaWAN

/-! ## Declarations of `LoRaWAN.h` -/

/-- Modelled from the spec: the status type of the absent header `LoRaWAN.h`, whose two
values the spec calls `Ok` and `Error`. -/
inductive Status_Typedef where
  | RAD_OK
  | RAD_ERROR
  deriving DecidableEq, Repr

/-- Modelled from the spec: the command type of the absent header `LoRaWAN.h`, one of
`Get`, `Set`, `Run`; `AtInvalid` stands for any other value of the C enum type. -/
inductive CommandType_e where
  | AtGet
  | AtSet
  | AtRun
  | AtInvalid
  deriving DecidableEq, Repr

open Status_Typedef CommandType_e

/-- AT Commands Strings. -/
def str_at_commands : List String :=
  [ "DADDR", "APPKEY", "APPSKEY", "NWKSKEY", "APPEUI", "ADR", "TXP", "DR", "DCS", "PNM",
    "RX2FQ", "RX2DR", "RX1DL", "RX2DL", "JN1DL", "JN2DL", "NJM", "NWKID", "CLASS", "JOIN",
    "NJS", "SENDB", "SEND", "VER", "CFM", "SNR", "RSSI", "BAT", "BAUDRATE", "NBTRIALS",
    "KEEPALIVE", "TXCFM", "CHMASK", "ADC", "GPIOC", "WPIN", "RPIN" ]

/-- Modelled from the spec: the catalog size, last enumerator of `AT_Commands_e` in the
absent header; a command id is valid when it is strictly less than it. -/
def NUMBER_OF_COMMANDS : Nat := 37

/-- Modelled from the spec: enumerators of `AT_Commands_e` (absent header) are the
ordinals of their mnemonics in `str_at_commands`; this one is the application key. -/
def AT_APPKEY : Nat := 1

/-- Modelled from the spec: ordinal of the application EUI command. -/
def AT_APPEUI : Nat := 4

/-- Modelled from the spec: ordinal of the network join mode command. -/
def AT_NJM : Nat := 16

/-- Modelled from the spec: ordinal of the join trigger command. -/
def AT_JOIN : Nat := 19

/-- Modelled from the spec: ordinal of the join-status query command. -/
def AT_NJS : Nat := 20

/-- Modelled from the spec: ordinal of the send-data command. -/
def AT_SEND : Nat := 22

/-- Modelled from the spec: ordinal of the binary send-data command. -/
def AT_SENDB : Nat := 21

/-- The `#define BUFFER_SIZE 256`. -/
def BUFFER_SIZE : Nat := 256

/-- The mnemonic `str_at_commands[command]` as a C string. -/
def mnemonic (command : Nat) : List Char :=
  (str_at_commands.getD command "").toList

/-! ## Serial ports and the global state -/

/-- A serial port of the Arduino core, seen from the driver. -/
structure HardwareSerial where
  /-- Received bytes not yet read. -/
  rx : List Char
  /-- Bytes the peer delivers during millisecond `t`. -/
  wire : Nat → List Char
  /-- The `write` calls so far, oldest first, each with the bytes it sent. -/
  tx : List (List Char)

/-- The file-scope variables of `LoRaWAN.cpp` and the environment they run in. -/
structure World where
  /-- Milliseconds elapsed. -/
  now : Nat
  /-- The pointer `hSerialCommand`; `none` is `NULL`. -/
  hSerialCommand : Option HardwareSerial
  /-- The pointer `hSerialTransp`; `none` is `NULL`. -/
  hSerialTransp : Option HardwareSerial
  /-- The transmit buffer `static uint8_t array[BUFFER_SIZE]`. -/
  array : List Char
  /-- The buffer `static char g_payload[BUFFER_SIZE]`. -/
  g_payload : List Char
  /-- Indeterminate memory: `stack k j` is what byte `j` of an uninitialised local
  holds in the `k`-th activation that has one. -/
  stack : Nat → Nat → Char
  /-- Number of activations that took an uninitialised local so far. -/
  frames : Nat
  /-- Undefined behaviour has occurred. -/
  fault : Bool

/-- What one millisecond brings to a port. -/
def HardwareSerial.tick (s : HardwareSerial) (t : Nat) : HardwareSerial :=
  { s with rx := s.rx ++ s.wire t }

/-- The call `delay(1)`. -/
def delay1 (w : World) : World :=
  { w with
    now := w.now + 1
    hSerialCommand := w.hSerialCommand.map (fun s => s.tick w.now)
    hSerialTransp := w.hSerialTransp.map (fun s => s.tick w.now) }

/-- The call `delay(ms)`. -/
def delay : Nat → World → World
  | 0, w => w
  | ms + 1, w => delay ms (delay1 w)

/-- The write calls made on the Command channel so far. -/
def cmdTx (w : World) : List (List Char) :=
  match w.hSerialCommand with
  | some s => s.tx
  | none => []

/-! ## Stores into the transmit buffer -/

/-- One store `array[i] = c`. -/
def World.storeArray (w : World) (i : Nat) (c : Char) : World :=
  if i < BUFFER_SIZE then { w with array := w.array.set i c } else { w with fault := true }

/-- The call `memcpy(&array[dst], src, n)` with `src` the `n` bytes to copy. -/
def World.memcpyArray (w : World) (dst : Nat) : List Char → World
  | [] => w
  | c :: cs => (w.storeArray dst c).memcpyArray (dst + 1) cs

/-- The call `memset(array, 0, BUFFER_SIZE)`. -/
def World.memsetArray (w : World) : World :=
  { w with array := List.replicate BUFFER_SIZE (Char.ofNat 0) }

/-- The call `strlen(s)`; on `NULL` it has no value and 0 stands in (the caller faults). -/
def strlen : Option (List Char) → Nat
  | some s => s.length
  | none => 0

/-- The call `strcpy((char*)&array[dst], src)`: the characters, then the NUL. -/
def World.strcpyArray (w : World) (dst : Nat) : Option (List Char) → World
  | some s => (w.memcpyArray dst s).storeArray (dst + s.length) (Char.ofNat 0)
  | none => { w with fault := true }

/-- The read `str_at_commands[command]`: at an index outside the entries of the table it is
a read outside an object, and the entry it yields stands for whatever lies there. -/
def World.readTable (w : World) (command : Nat) : World :=
  if command < str_at_commands.length then w else { w with fault := true }

/-- The call `hSerialCommand->write(array, n)`. -/
def World.writeCommand (w : World) (n : Nat) : World :=
  match w.hSerialCommand with
  | some s => { w with hSerialCommand := some { s with tx := s.tx ++ [w.array.take n] } }
  | none => { w with fault := true }

/-! ## `SendAtCommand` -/

/-- The end of `SendAtCommand`: the two terminator stores, the write, the settle delay and the
closing brace, reached without a `return`. -/
def SendAtCommand.finish (w : World) (index : Nat) : Option Status_Typedef × World :=
  let w := w.storeArray index '\r'
  let index := (index + 1) % 256
  let w := w.storeArray index '\n'
  let index := (index + 1) % 256
  let w := w.writeCommand index
  let w := delay 500 w
  (none, w)

/-- The function `SendAtCommand(command, command_type, payload)`; `index` is a `uint8_t`, and
`str_at_commands[command]` is read only behind the range test. -/
def SendAtCommand (command : Nat) (command_type : CommandType_e) (payload : Option (List Char))
    (w : World) : Option Status_Typedef × World :=
  let index : Nat := 3
  if payload.isNone ∧ command_type = AtSet then (some RAD_ERROR, w) else
  let w := w.memsetArray
  let w := w.memcpyArray 0 "AT+".toList
  if command ≥ NUMBER_OF_COMMANDS then (some RAD_ERROR, w) else
  let w := w.readTable command
  let w := w.memcpyArray index (mnemonic command)
  let index := (index + (mnemonic command).length) % 256
  match command_type with
  | AtGet =>
    let w := w.memcpyArray index "=?".toList
    let index := (index + 2) % 256
    SendAtCommand.finish w index
  | AtSet =>
    let w := w.storeArray index '='
    let index := (index + 1) % 256
    let w := w.strcpyArray index payload
    let index := (index + strlen payload) % 256
    SendAtCommand.finish w index
  | AtRun => SendAtCommand.finish w index
  | AtInvalid => (some RAD_ERROR, w)

/-- A world with both ports open and silent, used to run the functions on concrete inputs. -/
def quietPort : HardwareSerial := { rx := [], wire := fun _ => [], tx := [] }

/-- A world with both ports open and silent, every buffer zeroed. -/
def quietWorld : World :=
  { now := 0
    hSerialCommand := some quietPort
    hSerialTransp := some quietPort
    array := List.replicate BUFFER_SIZE (Char.ofNat 0)
    g_payload := List.replicate BUFFER_SIZE (Char.ofNat 0)
    stack := fun _ _ => Char.ofNat 0
    frames := 0
    fault := false }

/-! ## `ReceivePacketCommand` and `ReceivePacketTransp` -/

/-- The two ports of the driver. -/
inductive Port where
  | command
  | transp
  deriving DecidableEq, Repr

/-- The pointer behind a port. -/
def World.port (w : World) : Port → Option HardwareSerial
  | Port.command => w.hSerialCommand
  | Port.transp => w.hSerialTransp

/-- Update of the object behind a port. -/
def World.setPort (w : World) (p : Port) (s : HardwareSerial) : World :=
  match p with
  | Port.command => { w with hSerialCommand := some s }
  | Port.transp => { w with hSerialTransp := some s }

/-- The locals of a receive loop, the caller's buffer and the global state. -/
structure RxState where
  /-- The parameter `uint32_t timeout`. -/
  timeout : Nat
  /-- The local `uint8_t i`. -/
  i : Nat
  /-- The local `uint16_t waitNextByte`. -/
  waitNextByte : Nat
  /-- The bytes behind `payload`; the length is the room the caller gave. -/
  payload : List Char
  /-- The global state. -/
  world : World

/-- The loop condition `((timeout > 0) || (i > 0)) && (waitNextByte > 0)`. -/
def rxCond (st : RxState) : Bool :=
  (decide (st.timeout > 0) || decide (st.i > 0)) && decide (st.waitNextByte > 0)

/-- The statement `if(hSerial->available() > 0) { payload[i++] = hSerial->read(); waitNextByte = 20; }`. -/
def rxRead (p : Port) (st : RxState) : RxState :=
  match st.world.port p with
  | some s =>
    match s.rx with
    | b :: rest =>
      let w := st.world.setPort p { s with rx := rest }
      { st with
        payload := st.payload.set st.i b
        world := if st.i < st.payload.length then w else { w with fault := true }
        i := (st.i + 1) % 256
        waitNextByte := 20 }
    | [] => st
  | none => { st with world := { st.world with fault := true } }

/-- One pass through the body of the receive loop. -/
def rxStep (p : Port) (st : RxState) : RxState :=
  let st := rxRead p st
  let st := if st.i > 0 then { st with waitNextByte := (st.waitNextByte + 65535) % 65536 } else st
  { st with
    timeout := (st.timeout + 4294967295) % 4294967296
    world := delay1 st.world }

/-- The receive loop; `none` when the fuel runs out before the loop ends. -/
def rxLoop (p : Port) : Nat → RxState → Option RxState
  | 0, _ => none
  | fuel + 1, st => if rxCond st then rxLoop p fuel (rxStep p st) else some st

/-- What a receive call leaves behind: its status, the caller's buffer, the caller's
size cell and the global state. -/
structure RxResult where
  /-- The returned status. -/
  status : Status_Typedef
  /-- The bytes behind `payload` after the call. -/
  payload : Option (List Char)
  /-- The cell behind `payloadSize` after the call. -/
  payloadSize : Option Nat
  /-- The global state after the call. -/
  world : World

/-- The common body of `ReceivePacketCommand` and `ReceivePacketTransp`, which differ only in
the port they use. -/
def ReceivePacket (p : Port) (payload : Option (List Char)) (payloadSize : Option Nat)
    (timeout : Nat) (fuel : Nat) (w : World) : Option RxResult :=
  match payload, payloadSize, w.port p with
  | none, _, _ => some ⟨RAD_ERROR, payload, payloadSize, w⟩
  | some _, none, _ => some ⟨RAD_ERROR, payload, payloadSize, w⟩
  | some _, some _, none => some ⟨RAD_ERROR, payload, payloadSize, w⟩
  | some buf, some size, some _ =>
    match rxLoop p fuel ⟨timeout, 0, 20, buf, w⟩ with
    | none => none
    | some st =>
      if st.timeout = 0 ∧ st.i = 0 then some ⟨RAD_ERROR, some st.payload, some size, st.world⟩
      else some ⟨RAD_OK, some st.payload, some st.i, st.world⟩

/-- The function `ReceivePacketCommand(payload, payloadSize, timeout)`. -/
def ReceivePacketCommand (payload : Option (List Char)) (payloadSize : Option Nat)
    (timeout : Nat) (fuel : Nat) (w : World) : Option RxResult :=
  ReceivePacket Port.command payload payloadSize timeout fuel w

/-- The function `ReceivePacketTransp(payload, payloadSize, timeout)`. -/
def ReceivePacketTransp (payload : Option (List Char)) (payloadSize : Option Nat)
    (timeout : Nat) (fuel : Nat) (w : World) : Option RxResult :=
  ReceivePacket Port.transp payload payloadSize timeout fuel w

/-! ## `InitializeOTAA` -/

/-- The function `InitializeOTAA(p_appkey, p_appeui)`. -/
def InitializeOTAA (p_appkey p_appeui : Option (List Char)) (w : World) :
    Option Status_Typedef × World :=
  let char_one : List Char := "1".toList
  match p_appkey, p_appeui with
  | some appkey, some appeui =>
    if appkey.length ≠ 47 ∨ appeui.length ≠ 23 then (some RAD_ERROR, w) else
    let w := (SendAtCommand AT_NJM AtSet (some char_one) w).2
    let w := delay 1000 w
    let w := (SendAtCommand AT_APPKEY AtSet (some appkey) w).2
    let w := delay 1000 w
    let w := (SendAtCommand AT_APPEUI AtSet (some appeui) w).2
    let w := delay 1000 w
    (none, w)
  | _, _ => (some RAD_ERROR, w)

/-! ## `IsJoined` and `JoinNetwork` -/

/-- The loop `while(hSerial->available() > 0) hSerial->read();` on the receive FIFO. -/
def SerialFlush.loop : List Char → List Char
  | [] => []
  | _ :: rest => SerialFlush.loop rest

/-- The function `SerialFlush(hSerial)`. -/
def SerialFlush (p : Port) (w : World) : World :=
  match w.port p with
  | some s => w.setPort p { s with rx := SerialFlush.loop s.rx }
  | none => { w with fault := true }

/-- The function `IsJoined()`; `response` and `size` start with what the stack holds. -/
def IsJoined (fuel : Nat) (w : World) : Option (Status_Typedef × World) :=
  let response : List Char := (List.range 8).map (w.stack w.frames)
  let size : Nat := (w.stack w.frames 8).toNat % 256
  let w := { w with frames := w.frames + 1 }
  let w := SerialFlush Port.command w
  let w := (SendAtCommand AT_NJS AtGet none w).2
  match ReceivePacketCommand (some response) (some size) 500 fuel w with
  | none => none
  | some r =>
    match r.payload with
    | some (c :: _) => if c = '1' then some (RAD_OK, r.world) else some (RAD_ERROR, r.world)
    | _ => some (RAD_ERROR, r.world)

/-- The loop of `JoinNetwork`; `remaining` is the `uint16_t remaining_retries`. -/
def JoinNetwork.loop (fuel : Nat) (retries : Nat) : Nat → Nat → World → Option World
  | 0, _, _ => none
  | k + 1, remaining, w =>
    match IsJoined fuel w with
    | none => none
    | some (st, w) =>
      if st ≠ RAD_OK ∧ (retries = 0 ∨ remaining > 0) then
        let remaining := if remaining ≠ 0 then (remaining + 65535) % 65536 else remaining
        let w := (SendAtCommand AT_JOIN AtRun none w).2
        let w := delay 15000 w
        JoinNetwork.loop fuel retries k remaining w
      else some w

/-- The function `JoinNetwork(retries)`. -/
def JoinNetwork (retries : Nat) (fuel : Nat) (w : World) : Option (Status_Typedef × World) :=
  let remaining_retries := retries
  let w := delay 4000 w
  match JoinNetwork.loop fuel retries fuel remaining_retries w with
  | none => none
  | some w => IsJoined fuel w

/-! ## `SendString` -/

/-- One store `g_payload[i] = c`. -/
def World.storePayload (w : World) (i : Nat) (c : Char) : World :=
  if i < BUFFER_SIZE then { w with g_payload := w.g_payload.set i c }
  else { w with fault := true }

/-- Consecutive stores into `g_payload` from index `dst` on. -/
def World.writePayload (w : World) (dst : Nat) : List Char → World
  | [] => w
  | c :: cs => (w.storePayload dst c).writePayload (dst + 1) cs

/-- The conversion `%d` of a `uint8_t` argument: its decimal digits. -/
def decimal (port : Nat) : List Char :=
  (Nat.repr port).toList

/-- The call `sprintf(g_payload, "%d:%s\0", port, string)`: the digits, the colon, the
characters of the string and the terminating NUL, stored one after the other. -/
def World.sprintfPayload (w : World) (port : Nat) (string : List Char) : World :=
  w.writePayload 0 (decimal port ++ ":".toList ++ string ++ [Char.ofNat 0])

/-- The C string that starts at the first byte of a buffer: its bytes before the first NUL
(all of them when the buffer holds no NUL, which only happens after a store past its end). -/
def cstring (buffer : List Char) : List Char :=
  buffer.takeWhile (fun c => c ≠ Char.ofNat 0)

/-- The call `strnlen(s, maxlen)`. -/
def strnlen (s : List Char) (maxlen : Nat) : Nat :=
  min s.length maxlen

/-- The function `SendString(string, port)`; it ends without a `return` after the send. -/
def SendString (string : Option (List Char)) (port : Nat) (w : World) :
    Option Status_Typedef × World :=
  match string with
  | none => (some RAD_ERROR, w)
  | some s =>
    if strnlen s BUFFER_SIZE ≥ BUFFER_SIZE then (some RAD_ERROR, w) else
    let w := w.sprintfPayload port s
    let w := (SendAtCommand AT_SEND AtSet (some (cstring w.g_payload)) w).2
    (none, w)

/-! ## Worlds and measures used to state the properties -/

/-- Iteration `t` of a receive loop entered in `w` finds on port `p` the byte `sl t`, if any:
the FIFO holds what iteration 0 finds, and the peer delivers during each millisecond what the
next iteration finds. -/
def Feeds (p : Port) (w : World) (sl : Nat → Option Char) : Prop :=
  ∃ s, w.port p = some s ∧ s.rx = (sl 0).toList ∧ ∀ t, s.wire (w.now + t) = (sl (t + 1)).toList

/-- The iterations of a frame given as its bytes, each with the number of iterations without
a byte that come before it. -/
def slots : List (Nat × Char) → List (Option Char)
  | [] => []
  | (gap, b) :: rest => List.replicate gap none ++ some b :: slots rest

/-- The stream `sl` starts with the frame and then has 19 iterations without a byte. -/
def Carries (sl : Nat → Option Char) : List (Nat × Char) → Prop
  | [] => ∀ t, t < 19 → sl t = none
  | (gap, b) :: rest =>
    (∀ t, t < gap → sl t = none) ∧ sl gap = some b ∧ Carries (fun t => sl (t + (gap + 1))) rest

/-- The silent world with the Command port fed the iterations `sl`, one per millisecond. -/
def feedWorld (sl : List (Option Char)) : World :=
  { quietWorld with
    hSerialCommand := some
      { rx := (sl.getD 0 none).toList
        wire := fun t => (sl.getD (t + 1) none).toList
        tx := [] } }

/-- The retry cycle of `JoinNetwork` from the world in which a status poll is made to the
world in which the next one is made: the poll, the join trigger and the 15 s wait. -/
def afterRetry (fuel : Nat) (w : World) : Option World :=
  (IsJoined fuel w).map (fun r => delay 15000 (SendAtCommand AT_JOIN AtRun none r.2).2)

/-- The world in which poll `j + 1` of the retry loop is made when the loop is entered in `w`
and every earlier poll was followed by a retry. -/
def pollWorld (fuel : Nat) : Nat → World → Option World
  | 0, w => some w
  | j + 1, w => (afterRetry fuel w).bind (pollWorld fuel j)

/-- The status reported by poll `j + 1` of the retry loop entered in `w`. -/
def pollStatus (fuel : Nat) (j : Nat) (w : World) : Option Status_Typedef :=
  (pollWorld fuel j w).bind (fun wj => (IsJoined fuel wj).map Prod.fst)

/-- The status reported by a poll made right behind poll `j + 1` of the retry loop, with no
join trigger in between: the poll of `return IsJoined();` when poll `j + 1` ended the loop. -/
def finalStatus (fuel : Nat) (j : Nat) (w : World) : Option Status_Typedef :=
  (pollWorld fuel j w).bind (fun wj =>
    (IsJoined fuel wj).bind (fun r => (IsJoined fuel r.2).map Prod.fst))

/-- Number of join triggers `AT+JOIN\r\n` written on the Command port so far. -/
def joinTriggers (w : World) : Nat :=
  (cmdTx w).count "AT+JOIN\r\n".toList

/-- Number of join-status queries `AT+NJS=?\r\n` written on the Command port so far. -/
def statusPolls (w : World) : Nat :=
  (cmdTx w).count "AT+NJS=?\r\n".toList

/-- The Command port is open and its peer stays silent from now on. -/
def Silent (w : World) : Prop :=
  ∃ s, w.hSerialCommand = some s ∧ ∀ t, s.wire (w.now + t) = []

/-- The silent world in which the stack holds `1` where `response` will be from the `k`-th
activation of `IsJoined` on, and `0` before. -/
def staleWorld (k : Nat) : World :=
  { quietWorld with stack := fun f _ => if f + 1 < k then '0' else '1' }

/-- An application key in the format of the modem: 16 bytes in hexadecimal, with separators. -/
def sampleAppKey : List Char := "00:11:22:33:44:55:66:77:88:99:AA:BB:CC:DD:EE:FF".toList

/-- An application EUI in the format of the modem: 8 bytes in hexadecimal, with separators. -/
def sampleAppEui : List Char := "70:B3:D5:7E:D0:00:12:34".toList

/-- The frame the encoder is to build, in the words of the spec: `AT+`, the mnemonic, the
suffix (`=?` for `Get`, `=` and the parameter for `Set`, nothing for `Run`) and the line end. -/
def atFrame (c : Nat) (t : CommandType_e) (payload : Option (List Char)) : List Char :=
  "AT+".toList ++ mnemonic c ++
    (match t, payload with
      | AtGet, _ => "=?".toList
      | AtSet, some v => '=' :: v
      | _, _ => []) ++ "\r\n".toList

/-- The part of a frame between `AT+` and the first `=` or carriage return. -/
def frameStem (frame : List Char) : List Char :=
  (frame.drop 3).takeWhile (fun ch => ch != '=' && ch != '\r')

/-! ## Relations between worlds used in the proofs -/

/-- The world `w` differs from `w0` at most in the transmit buffer, which has its 256 bytes
and starts with `pre`. -/
structure Built (w0 w : World) (pre : List Char) : Prop where
  rest : { w with array := w0.array } = w0
  len : w.array.length = BUFFER_SIZE
  take : w.array.take pre.length = pre

/-- The world `w'` has the stack, the activation count and the writes on the Command port of
`w`, and the Command port is open in both or in neither. -/
structure Keeps (w w' : World) : Prop where
  stack : w'.stack = w.stack
  frames : w'.frames = w.frames
  tx : cmdTx w' = cmdTx w
  isOpen : w'.hSerialCommand.isSome = w.hSerialCommand.isSome

/-- The world after a frame went out: the buffer holds `a`, the Command port has one more
write, and the settle delay has passed. -/
def afterSend (w : World) (s : HardwareSerial) (a frame : List Char) : World :=
  delay 500 { w with array := a, hSerialCommand := some { s with tx := s.tx ++ [frame] } }

/-! ## The transmit buffer while a frame is assembled -/

theorem Built.memset (w : World) : Built w w.memsetArray [] := by
  refine ⟨rfl, ?_, ?_⟩
  · simp [World.memsetArray]
  · simp

theorem Built.store {w0 w : World} {pre : List Char} (h : Built w0 w pre) (c : Char)
    (hlt : pre.length < BUFFER_SIZE) : Built w0 (w.storeArray pre.length c) (pre ++ [c]) := by
  have hl := h.len
  unfold World.storeArray
  rw [if_pos hlt]
  refine ⟨h.rest, ?_, ?_⟩
  · simpa using hl
  · have h1 : pre.length < w.array.length := by omega
    show ((w.array.set pre.length c).take (pre ++ [c]).length) = pre ++ [c]
    rw [List.set_eq_take_append_cons_drop, if_pos h1, List.length_append, List.length_singleton]
    have h2 : (List.take pre.length w.array).length = pre.length := by
      rw [List.length_take]; omega
    rw [h.take] at h2 ⊢
    rw [show pre ++ c :: List.drop (pre.length + 1) w.array
        = (pre ++ [c]) ++ List.drop (pre.length + 1) w.array by simp]
    exact List.take_left' (by simp)

/-- A store just behind the assembled bytes leaves them as they are. -/
theorem Built.store_behind {w0 w : World} {pre : List Char} (h : Built w0 w pre) (c : Char)
    (hlt : pre.length < BUFFER_SIZE) : Built w0 (w.storeArray pre.length c) pre := by
  have h1 := h.store c hlt
  refine ⟨h1.rest, h1.len, ?_⟩
  have h2 := congrArg (List.take pre.length) h1.take
  rw [List.take_take] at h2
  simpa using h2

theorem Built.memcpy {w0 : World} (cs : List Char) :
    ∀ {w : World} {pre : List Char}, Built w0 w pre → pre.length + cs.length ≤ BUFFER_SIZE →
      Built w0 (w.memcpyArray pre.length cs) (pre ++ cs) := by
  induction cs with
  | nil => intro w pre h _; simpa [World.memcpyArray] using h
  | cons c cs ih =>
    intro w pre h hle
    simp only [List.length_cons] at hle
    have h1 := h.store c (by omega)
    have h2 := ih h1 (by simp only [List.length_append, List.length_singleton]; omega)
    simp only [List.length_append, List.length_singleton, List.append_assoc,
      List.singleton_append] at h2
    simpa [World.memcpyArray] using h2

/-! ## What `delay` leaves alone -/

theorem cmdTx_delay1 (w : World) : cmdTx (delay1 w) = cmdTx w := by
  unfold cmdTx delay1
  cases h : w.hSerialCommand <;> simp [h, HardwareSerial.tick]

theorem cmdTx_delay (ms : Nat) : ∀ w : World, cmdTx (delay ms w) = cmdTx w := by
  induction ms with
  | zero => intro w; rfl
  | succ n ih => intro w; rw [delay, ih, cmdTx_delay1]

theorem fault_delay (ms : Nat) : ∀ w : World, (delay ms w).fault = w.fault := by
  induction ms with
  | zero => intro w; rfl
  | succ n ih => intro w; rw [delay, ih]; rfl

theorem now_delay (ms : Nat) : ∀ w : World, (delay ms w).now = w.now + ms := by
  induction ms with
  | zero => intro w; rfl
  | succ n ih => intro w; rw [delay, ih]; simp [delay1]; omega

theorem isSome_delay (ms : Nat) :
    ∀ w : World, (delay ms w).hSerialCommand.isSome = w.hSerialCommand.isSome := by
  induction ms with
  | zero => intro w; rfl
  | succ n ih => intro w; rw [delay, ih]; simp [delay1]

/-! ## Frames sent by `SendAtCommand` -/

theorem mnemonic_length_le (c : Nat) (hc : c < NUMBER_OF_COMMANDS) : (mnemonic c).length ≤ 9 := by
  unfold NUMBER_OF_COMMANDS at hc
  interval_cases c <;> decide

theorem finish_frame {w0 w : World} {pre : List Char} {s : HardwareSerial}
    (h : Built w0 w pre) (hs : w0.hSerialCommand = some s) (hlen : pre.length + 2 ≤ 255) :
    ∃ a, a.length = BUFFER_SIZE ∧
      SendAtCommand.finish w pre.length = (none, afterSend w0 s a (pre ++ "\r\n".toList)) := by
  have hB : BUFFER_SIZE = 256 := rfl
  have h1 := h.store '\r' (by omega)
  have h2 := h1.store '\n' (by simp only [List.length_append, List.length_singleton]; omega)
  simp only [List.length_append, List.length_singleton, List.append_assoc,
    List.singleton_append] at h2
  refine ⟨((w.storeArray pre.length '\r').storeArray (pre.length + 1) '\n').array, h2.len, ?_⟩
  unfold SendAtCommand.finish
  have e1 : (pre.length + 1) % 256 = pre.length + 1 := Nat.mod_eq_of_lt (by omega)
  have e2 : (pre.length + 1 + 1) % 256 = (pre ++ ['\r', '\n']).length := by
    simp only [List.length_append, List.length_cons, List.length_nil]
    exact Nat.mod_eq_of_lt (by omega)
  simp only [e1, e2]
  have hs2 : ((w.storeArray pre.length '\r').storeArray (pre.length + 1) '\n').hSerialCommand
      = some s := by
    rw [← hs, ← h2.rest]
  unfold World.writeCommand afterSend
  rw [hs2, h2.take]
  have hr := h2.rest
  congr 2
  generalize ((w.storeArray pre.length '\r').storeArray (pre.length + 1) '\n') = w2 at hr hs2 ⊢
  cases w2
  cases w0
  simp only [World.mk.injEq] at hr ⊢
  simp_all

/-- A read of the table at a valid id stays inside it. -/
theorem readTable_valid (w : World) (c : Nat) (hc : c < NUMBER_OF_COMMANDS) :
    w.readTable c = w := by
  unfold World.readTable
  rw [if_pos]
  exact hc

theorem SendAtCommand_get {w : World} {s : HardwareSerial} (c : Nat) (payload : Option (List Char))
    (hc : c < NUMBER_OF_COMMANDS) (hs : w.hSerialCommand = some s) :
    ∃ a, a.length = BUFFER_SIZE ∧ SendAtCommand c AtGet payload w
      = (none, afterSend w s a ("AT+".toList ++ mnemonic c ++ "=?\r\n".toList)) := by
  have hm := mnemonic_length_le c hc
  have hB : BUFFER_SIZE = 256 := rfl
  have b1 := (Built.memset w).memcpy "AT+".toList (by decide)
  have b2 := b1.memcpy (mnemonic c) (by simp; omega)
  have b3 := b2.memcpy "=?".toList (by simp; omega)
  obtain ⟨a, ha, hfin⟩ := finish_frame b3 hs (by simp; omega)
  refine ⟨a, ha, ?_⟩
  have e1 : (3 + (mnemonic c).length) % 256 = ([] ++ "AT+".toList ++ mnemonic c).length := by
    simp; omega
  have e2 : (([] ++ "AT+".toList ++ mnemonic c).length + 2) % 256
      = ([] ++ "AT+".toList ++ mnemonic c ++ "=?".toList).length := by
    simp; omega
  unfold SendAtCommand
  simp only [e1, e2]
  rw [if_neg (by simp), if_neg (by omega)]
  simp only [readTable_valid _ c hc]
  simp only [List.nil_append, List.length_nil] at hfin b1 b2 b3 ⊢
  have e3 : ("AT+".toList).length = 3 := rfl
  rw [e3] at b2 b3 hfin
  rw [hfin]
  simp

theorem SendAtCommand_run {w : World} {s : HardwareSerial} (c : Nat) (payload : Option (List Char))
    (hc : c < NUMBER_OF_COMMANDS) (hs : w.hSerialCommand = some s) :
    ∃ a, a.length = BUFFER_SIZE ∧ SendAtCommand c AtRun payload w
      = (none, afterSend w s a ("AT+".toList ++ mnemonic c ++ "\r\n".toList)) := by
  have hm := mnemonic_length_le c hc
  have hB : BUFFER_SIZE = 256 := rfl
  have b1 := (Built.memset w).memcpy "AT+".toList (by decide)
  have b2 := b1.memcpy (mnemonic c) (by simp; omega)
  obtain ⟨a, ha, hfin⟩ := finish_frame b2 hs (by simp; omega)
  refine ⟨a, ha, ?_⟩
  have e1 : (3 + (mnemonic c).length) % 256 = ([] ++ "AT+".toList ++ mnemonic c).length := by
    simp; omega
  unfold SendAtCommand
  simp only [e1]
  rw [if_neg (by simp), if_neg (by omega)]
  simp only [readTable_valid _ c hc]
  simp only [List.nil_append, List.length_nil] at hfin b1 b2 ⊢
  have e3 : ("AT+".toList).length = 3 := rfl
  rw [e3] at b2 hfin
  rw [hfin]

theorem SendAtCommand_set {w : World} {s : HardwareSerial} (c : Nat) (v : List Char)
    (hc : c < NUMBER_OF_COMMANDS) (hs : w.hSerialCommand = some s)
    (hlen : 3 + (mnemonic c).length + 1 + v.length + 2 ≤ 255) :
    ∃ a, a.length = BUFFER_SIZE ∧ SendAtCommand c AtSet (some v) w
      = (none, afterSend w s a ("AT+".toList ++ mnemonic c ++ "=".toList ++ v ++ "\r\n".toList)) := by
  have hB : BUFFER_SIZE = 256 := rfl
  have b1 := (Built.memset w).memcpy "AT+".toList (by decide)
  have b2 := b1.memcpy (mnemonic c) (by simp; omega)
  have b3 := b2.store '=' (by simp; omega)
  have b4 := b3.memcpy v (by simp; omega)
  have b5 := b4.store_behind (Char.ofNat 0) (by simp; omega)
  obtain ⟨a, ha, hfin⟩ := finish_frame b5 hs (by simp; omega)
  refine ⟨a, ha, ?_⟩
  have e1 : (3 + (mnemonic c).length) % 256 = ([] ++ "AT+".toList ++ mnemonic c).length := by
    simp; omega
  have e2 : (([] ++ "AT+".toList ++ mnemonic c).length + 1) % 256
      = ([] ++ "AT+".toList ++ mnemonic c ++ ['=']).length := by
    simp; omega
  have e3 : (([] ++ "AT+".toList ++ mnemonic c ++ ['=']).length + strlen (some v)) % 256
      = ([] ++ "AT+".toList ++ mnemonic c ++ ['='] ++ v).length := by
    simp [strlen]; omega
  unfold SendAtCommand
  simp only [e1, e2, e3]
  rw [if_neg (by simp), if_neg (by omega)]
  simp only [readTable_valid _ c hc]
  simp only [List.nil_append, List.length_nil] at hfin b1 b2 b3 b4 b5 ⊢
  have e4 : ("AT+".toList).length = 3 := rfl
  rw [e4] at b2 b3 b4 b5 hfin
  simp only [World.strcpyArray]
  rw [show ("AT+".toList ++ mnemonic c ++ ['=']).length + v.length
      = ("AT+".toList ++ mnemonic c ++ ['='] ++ v).length by simp; omega, hfin]
  rfl

/-! ## One pass through the receive loop -/

theorem Feeds.step {p : Port} {w : World} {sl : Nat → Option Char} {s : HardwareSerial}
    (hp : w.port p = some s) (hw : ∀ t, s.wire (w.now + t) = (sl (t + 1)).toList) :
    Feeds p (delay1 (w.setPort p { s with rx := [] })) (fun t => sl (t + 1)) := by
  have hw0 := hw 0
  simp only [Nat.add_zero] at hw0
  cases p
  · refine ⟨{ s with rx := [] ++ s.wire w.now }, ?_, ?_, ?_⟩
    · simp [delay1, World.setPort, World.port, HardwareSerial.tick]
    · simp [hw0]
    · intro t
      have := hw (t + 1)
      simpa [delay1, World.setPort, Nat.add_assoc, Nat.add_comm 1 t] using this
  · refine ⟨{ s with rx := [] ++ s.wire w.now }, ?_, ?_, ?_⟩
    · simp [delay1, World.setPort, World.port, HardwareSerial.tick]
    · simp [hw0]
    · intro t
      have := hw (t + 1)
      simpa [delay1, World.setPort, Nat.add_assoc, Nat.add_comm 1 t] using this

theorem setPort_self {p : Port} {w : World} {s : HardwareSerial} (hp : w.port p = some s) :
    w.setPort p s = w := by
  cases p <;> cases w <;> simp_all [World.setPort, World.port]

theorem rxStep_idle {p : Port} {st : RxState} {sl : Nat → Option Char}
    (h : Feeds p st.world sl) (h0 : sl 0 = none) :
    (rxStep p st).i = st.i ∧ (rxStep p st).payload = st.payload ∧
    (rxStep p st).timeout = (st.timeout + 4294967295) % 4294967296 ∧
    (rxStep p st).waitNextByte
      = (if st.i > 0 then (st.waitNextByte + 65535) % 65536 else st.waitNextByte) ∧
    (rxStep p st).world.fault = st.world.fault ∧
    (rxStep p st).world.now = st.world.now + 1 ∧
    Feeds p (rxStep p st).world (fun t => sl (t + 1)) := by
  obtain ⟨s, hp, hrx, hw⟩ := h
  rw [h0] at hrx
  have hs : ({ s with rx := [] } : HardwareSerial) = s := by cases s; simp_all
  have hF := Feeds.step hp hw
  rw [hs, setPort_self hp] at hF
  have hr : rxRead p st = st := by
    unfold rxRead
    simp only [hp]
    simp at hrx
    simp [hrx]
  unfold rxStep
  simp only [hr]
  refine ⟨?_, ?_, ?_, ?_, ?_, ?_, ?_⟩ <;> split_ifs <;> first | rfl | exact hF

theorem rxStep_byte {p : Port} {st : RxState} {sl : Nat → Option Char} {b : Char}
    (h : Feeds p st.world sl) (h0 : sl 0 = some b) :
    (rxStep p st).i = (st.i + 1) % 256 ∧ (rxStep p st).payload = st.payload.set st.i b ∧
    (rxStep p st).timeout = (st.timeout + 4294967295) % 4294967296 ∧
    (rxStep p st).waitNextByte = (if (st.i + 1) % 256 > 0 then 19 else 20) ∧
    (rxStep p st).world.fault = (st.world.fault || !decide (st.i < st.payload.length)) ∧
    (rxStep p st).world.now = st.world.now + 1 ∧
    Feeds p (rxStep p st).world (fun t => sl (t + 1)) := by
  obtain ⟨s, hp, hrx, hw⟩ := h
  rw [h0] at hrx
  simp at hrx
  have hF := Feeds.step hp hw
  have hr : rxRead p st = { st with
        payload := st.payload.set st.i b
        world := if st.i < st.payload.length then st.world.setPort p { s with rx := [] }
          else { st.world.setPort p { s with rx := [] } with fault := true }
        i := (st.i + 1) % 256
        waitNextByte := 20 } := by
    unfold rxRead
    simp only [hp]
    simp [hrx]
  have hF2 : Feeds p (delay1 { st.world.setPort p { s with rx := [] } with fault := true })
      (fun t => sl (t + 1)) := by
    obtain ⟨s2, h1, h2, h3⟩ := hF
    refine ⟨s2, ?_, h2, ?_⟩
    · cases p <;> simpa [delay1, World.setPort, World.port] using h1
    · intro t; have := h3 t
      cases p <;> simpa [delay1, World.setPort, World.port] using this
  unfold rxStep
  simp only [hr]
  refine ⟨?_, ?_, ?_, ?_, ?_, ?_, ?_⟩ <;> split_ifs <;>
    first
    | rfl
    | exact hF
    | exact hF2
    | (cases p <;> simp_all [delay1, World.setPort])

/-! ## Runs of the receive loop -/

theorem rxLoop_exit (p : Port) (fuel : Nat) (st : RxState) (h : rxCond st = false) :
    rxLoop p (fuel + 1) st = some st := by
  simp [rxLoop, h]

theorem rxLoop_pass (p : Port) (fuel : Nat) (st : RxState) (h : rxCond st = true) :
    rxLoop p (fuel + 1) st = rxLoop p fuel (rxStep p st) := by
  simp [rxLoop, h]

/-- More fuel does not change the result of a loop that has ended. -/
theorem rxLoop_mono (p : Port) (k : Nat) :
    ∀ (fuel : Nat) (st r : RxState), rxLoop p fuel st = some r → rxLoop p (fuel + k) st = some r := by
  intro fuel
  induction fuel with
  | zero => intro st r h; simp [rxLoop] at h
  | succ n ih =>
    intro st r h
    rw [show n + 1 + k = (n + k) + 1 by omega]
    by_cases hc : rxCond st = true
    · rw [rxLoop_pass p _ _ hc] at h ⊢
      exact ih _ _ h
    · simp only [Bool.not_eq_true] at hc
      rw [rxLoop_exit p _ _ hc] at h ⊢
      exact h

/-- Idle iterations before the first byte: only the budget and the clock move. -/
theorem rx_idle_unstarted (p : Port) (fuel : Nat) (k : Nat) :
    ∀ (st : RxState) (sl : Nat → Option Char), Feeds p st.world sl →
      (∀ t, t < k → sl t = none) → st.i = 0 → st.waitNextByte = 20 →
      k ≤ st.timeout → st.timeout < 4294967296 →
      ∃ st', rxLoop p (k + fuel) st = rxLoop p fuel st' ∧ st'.i = 0 ∧ st'.waitNextByte = 20 ∧
        st'.timeout = st.timeout - k ∧ st'.payload = st.payload ∧
        st'.world.fault = st.world.fault ∧ st'.world.now = st.world.now + k ∧
        Feeds p st'.world (fun t => sl (t + k)) := by
  induction k with
  | zero =>
    intro st sl hF _ hi hw _ _
    exact ⟨st, by simp, hi, hw, by simp, rfl, rfl, rfl, by simpa using hF⟩
  | succ n ih =>
    intro st sl hF hsl hi hw hk hT
    obtain ⟨e1, e2, e3, e4, e5, e6, e7⟩ := rxStep_idle hF (hsl 0 (by omega))
    have hc : rxCond st = true := by
      simp only [rxCond, hi, hw]
      simp; omega
    rw [show n + 1 + fuel = (n + fuel) + 1 by omega, rxLoop_pass p _ _ hc]
    have e3' : (rxStep p st).timeout = st.timeout - 1 := by rw [e3]; omega
    obtain ⟨st', h1, h2, h3, h4, h5, h6, h7, h8⟩ := ih (rxStep p st) (fun t => sl (t + 1)) e7
      (fun t ht => hsl (t + 1) (by omega)) (by rw [e1, hi]) (by rw [e4, hi]; simp [hw])
      (by omega) (by omega)
    refine ⟨st', h1, h2, h3, by omega, by rw [h5, e2], by rw [h6, e5], by omega, ?_⟩
    have : (fun t => sl (t + (n + 1))) = (fun t => (fun t => sl (t + 1)) (t + n)) := by
      funext t; exact congrArg sl (by omega)
    rw [this]; exact h8

/-- Idle iterations inside a frame: only the idle budget, the budget and the clock move. -/
theorem rx_idle_started (p : Port) (fuel : Nat) (k : Nat) :
    ∀ (st : RxState) (sl : Nat → Option Char), Feeds p st.world sl →
      (∀ t, t < k → sl t = none) → 0 < st.i → k ≤ st.waitNextByte → st.waitNextByte ≤ 20 →
      ∃ st', rxLoop p (k + fuel) st = rxLoop p fuel st' ∧ st'.i = st.i ∧
        st'.waitNextByte = st.waitNextByte - k ∧ st'.payload = st.payload ∧
        st'.world.fault = st.world.fault ∧ st'.world.now = st.world.now + k ∧
        Feeds p st'.world (fun t => sl (t + k)) := by
  induction k with
  | zero =>
    intro st sl hF _ _ _ _
    exact ⟨st, by simp, rfl, by simp, rfl, rfl, rfl, by simpa using hF⟩
  | succ n ih =>
    intro st sl hF hsl hi hk hw
    obtain ⟨e1, e2, _, e4, e5, e6, e7⟩ := rxStep_idle hF (hsl 0 (by omega))
    have hc : rxCond st = true := by
      simp only [rxCond]
      simp; omega
    rw [show n + 1 + fuel = (n + fuel) + 1 by omega, rxLoop_pass p _ _ hc]
    have e4' : (rxStep p st).waitNextByte = st.waitNextByte - 1 := by
      rw [e4, if_pos hi]; omega
    obtain ⟨st', h1, h2, h3, h5, h6, h7, h8⟩ := ih (rxStep p st) (fun t => sl (t + 1)) e7
      (fun t ht => hsl (t + 1) (by omega)) (by rw [e1]; exact hi) (by omega) (by omega)
    refine ⟨st', h1, by rw [h2, e1], by omega, by rw [h5, e2], by rw [h6, e5], by omega, ?_⟩
    have : (fun t => sl (t + (n + 1))) = (fun t => (fun t => sl (t + 1)) (t + n)) := by
      funext t; exact congrArg sl (by omega)
    rw [this]; exact h8

theorem take_set_succ {l : List Char} {i : Nat} (c : Char) (h : i < l.length) :
    (l.set i c).take (i + 1) = l.take i ++ [c] := by
  rw [List.set_eq_take_append_cons_drop, if_pos h]
  rw [show List.take i l ++ c :: List.drop (i + 1) l
      = (List.take i l ++ [c]) ++ List.drop (i + 1) l by simp]
  exact List.take_left' (by simp; omega)

theorem slots_length_cons (gap : Nat) (b : Char) (rest : List (Nat × Char)) :
    (slots ((gap, b) :: rest)).length = gap + 1 + (slots rest).length := by
  simp [slots]; omega

/-- A frame whose first byte has been read: its other bytes are read as long as no gap has
more than 18 iterations, and the loop ends 19 iterations after the last byte. -/
theorem rx_frame_started (p : Port) (fuel : Nat) :
    ∀ (frame : List (Nat × Char)) (st : RxState) (sl : Nat → Option Char),
      Feeds p st.world sl → Carries sl frame → (∀ x ∈ frame, x.1 ≤ 18) →
      0 < st.i → st.i + frame.length ≤ 255 → st.waitNextByte = 19 →
      st.i + frame.length ≤ st.payload.length →
      ∃ st', rxLoop p ((slots frame).length + 19 + 1 + fuel) st = some st' ∧
        st'.i = st.i + frame.length ∧ st'.payload.length = st.payload.length ∧
        st'.payload.take (st.i + frame.length) = st.payload.take st.i ++ frame.map Prod.snd ∧
        st'.world.fault = st.world.fault ∧
        st'.world.now = st.world.now + ((slots frame).length + 19) ∧
        Feeds p st'.world (fun t => sl (t + ((slots frame).length + 19))) := by
  intro frame
  induction frame with
  | nil =>
    intro st sl hF hC _ hi _ hw _
    obtain ⟨st', h1, h2, h3, h4, h5, h6, h7⟩ :=
      rx_idle_started p (1 + fuel) 19 st sl hF hC hi (by omega) (by omega)
    have hc : rxCond st' = false := by
      simp only [rxCond, h3, hw]; simp
    refine ⟨st', ?_, by simpa using h2, by rw [h4], by simp [h4], h5, by simpa [slots] using h6,
      by simpa [slots] using h7⟩
    rw [show (slots []).length + 19 + 1 + fuel = 19 + (1 + fuel) by simp [slots]; omega, h1,
      show 1 + fuel = fuel + 1 by omega, rxLoop_exit p _ _ hc]
  | cons x rest ih =>
    obtain ⟨gap, b⟩ := x
    intro st sl hF hC hg hi hn hw hcap
    obtain ⟨hC1, hC2, hC3⟩ := hC
    have hgap : gap ≤ 18 := hg (gap, b) (by simp)
    simp only [List.length_cons] at hn hcap
    obtain ⟨st1, a1, a2, a3, a4, a5, a6, a7⟩ :=
      rx_idle_started p (((slots rest).length + 19 + 1 + fuel) + 1) gap st sl hF hC1 hi
        (by omega) (by omega)
    have hc : rxCond st1 = true := by
      simp only [rxCond]; simp; omega
    have hb : (fun t => sl (t + gap)) 0 = some b := by simpa using hC2
    obtain ⟨e1, e2, _, e4, e5, e6, e7⟩ := rxStep_byte a7 hb
    have hi1 : (st1.i + 1) % 256 = st.i + 1 := by rw [a2]; omega
    rw [hi1] at e1 e4
    rw [a2, a4] at e2
    have hlt : st.i < st.payload.length := by omega
    have hsl : (fun t => (fun t => sl (t + gap)) (t + 1)) = (fun t => sl (t + (gap + 1))) := by
      funext t; exact congrArg sl (by omega)
    rw [hsl] at e7
    obtain ⟨st', h1, h2, h3, h4, h5, h6, h7⟩ := ih (rxStep p st1) (fun t => sl (t + (gap + 1))) e7 hC3
      (fun y hy => hg y (List.mem_cons_of_mem _ hy)) (by omega) (by omega)
      (by rw [e4]; simp) (by rw [e1, e2, List.length_set]; omega)
    refine ⟨st', ?_, ?_, ?_, ?_, ?_, ?_, ?_⟩
    · rw [slots_length_cons, show gap + 1 + (slots rest).length + 19 + 1 + fuel
        = gap + (((slots rest).length + 19 + 1 + fuel) + 1) by omega, a1,
        rxLoop_pass p _ _ hc, h1]
    · rw [h2, e1, List.length_cons]; omega
    · rw [h3, e2, List.length_set]
    · rw [e1, e2] at h4
      rw [List.length_cons, show st.i + (rest.length + 1) = st.i + 1 + rest.length by omega, h4,
        take_set_succ b hlt]
      simp
    · rw [h5, e5, a5, a2, a4]; simp [hlt]
    · rw [h6, e6, a6, slots_length_cons]; omega
    · have : (fun t => sl (t + ((slots ((gap, b) :: rest)).length + 19)))
          = (fun t => (fun t => sl (t + (gap + 1))) (t + ((slots rest).length + 19))) := by
        funext t; rw [slots_length_cons]; exact congrArg sl (by omega)
      rw [this]; exact h7

theorem getD_replicate_append (l : List (Option Char)) :
    ∀ (gap t : Nat), (List.replicate gap none ++ l).getD t none
      = if t < gap then none else l.getD (t - gap) none := by
  intro gap
  induction gap with
  | zero => intro t; simp
  | succ n ih =>
    intro t
    cases t with
    | zero => simp [List.replicate_succ]
    | succ m =>
      rw [List.replicate_succ, List.cons_append, List.getD_cons_succ, ih]
      simp

/-- A stream that agrees with the iterations of a frame, and with at least 19 iterations
without a byte behind them, carries the frame. -/
theorem carries_of_slots :
    ∀ (frame : List (Nat × Char)) (sl : Nat → Option Char) (quiet : Nat), 19 ≤ quiet →
      (∀ t, t < (slots frame).length + quiet → sl t = (slots frame).getD t none) →
      Carries sl frame := by
  intro frame
  induction frame with
  | nil =>
    intro sl quiet hq h t ht
    rw [h t (by simp [slots]; omega)]
    simp [slots]
  | cons x rest ih =>
    obtain ⟨gap, b⟩ := x
    intro sl quiet hq h
    rw [slots_length_cons] at h
    refine ⟨?_, ?_, ?_⟩
    · intro t ht
      rw [h t (by omega), slots, getD_replicate_append, if_pos ht]
    · rw [h gap (by omega), slots, getD_replicate_append, if_neg (by omega)]
      simp
    · refine ih _ quiet hq ?_
      intro t ht
      rw [h (t + (gap + 1)) (by omega), slots, getD_replicate_append, if_neg (by omega),
        show t + (gap + 1) - gap = t + 1 by omega, List.getD_cons_succ]

theorem ReceivePacket_mono (p : Port) (payload : Option (List Char)) (payloadSize : Option Nat)
    (timeout fuel k : Nat) (w : World) (r : RxResult)
    (h : ReceivePacket p payload payloadSize timeout fuel w = some r) :
    ReceivePacket p payload payloadSize timeout (fuel + k) w = some r := by
  unfold ReceivePacket at h ⊢
  split at h
  · exact h
  · exact h
  · exact h
  · rename_i buf size s hp
    cases hl : rxLoop p fuel ⟨timeout, 0, 20, buf, w⟩ with
    | none => simp [hl] at h
    | some st =>
      rw [rxLoop_mono p k _ _ _ hl]
      simpa [hl] using h

/-- A frame on a port: its first byte shows within the budget, no later gap has more than 18
iterations, and 19 iterations without a byte follow its last byte. -/
theorem ReceivePacket_frame (p : Port) (fuel : Nat) (gap : Nat) (b : Char)
    (rest : List (Nat × Char)) (buf : List Char) (size N : Nat) (w : World)
    (sl : Nat → Option Char) (hF : Feeds p w sl) (hC : Carries sl ((gap, b) :: rest))
    (hgap : gap < N) (hN : N < 4294967296) (hg : ∀ x ∈ rest, x.1 ≤ 18)
    (hn : rest.length + 1 ≤ 255) (hroom : rest.length + 1 ≤ buf.length) :
    ∃ r buf', ReceivePacket p (some buf) (some size) N
          ((slots ((gap, b) :: rest)).length + 19 + 1 + fuel) w = some r ∧
      r.status = RAD_OK ∧ r.payloadSize = some (rest.length + 1) ∧
      r.payload = some buf' ∧ buf'.length = buf.length ∧
      buf'.take (rest.length + 1) = b :: rest.map Prod.snd ∧
      r.world.fault = w.fault ∧
      r.world.now = w.now + ((slots ((gap, b) :: rest)).length + 19) ∧
      Feeds p r.world (fun t => sl (t + ((slots ((gap, b) :: rest)).length + 19))) := by
  obtain ⟨hC1, hC2, hC3⟩ := hC
  obtain ⟨s, hp, _, _⟩ := id hF
  obtain ⟨st1, a1, a2, a3, a4, a5, a6, a7, a8⟩ :=
    rx_idle_unstarted p (((slots rest).length + 19 + 1 + fuel) + 1) gap ⟨N, 0, 20, buf, w⟩ sl hF hC1
      rfl rfl (by simp only; omega) hN
  simp only at a4 a5 a6 a7
  have hc : rxCond st1 = true := by
    simp only [rxCond, a2, a3, a4]; simp; omega
  have hb : (fun t => sl (t + gap)) 0 = some b := by simpa using hC2
  obtain ⟨e1, e2, _, e4, e5, e6, e7⟩ := rxStep_byte a8 hb
  rw [a2] at e1 e2 e4 e5
  rw [a5] at e2 e5
  simp only [Nat.zero_add, Nat.one_mod] at e1 e4
  have hsl : (fun t => (fun t => sl (t + gap)) (t + 1)) = (fun t => sl (t + (gap + 1))) := by
    funext t; exact congrArg sl (by omega)
  rw [hsl] at e7
  have hlt : 0 < buf.length := by omega
  obtain ⟨st', h1, h2, h3, h4, h5, h6, h7⟩ := rx_frame_started p fuel rest (rxStep p st1)
    (fun t => sl (t + (gap + 1))) e7 hC3 hg (by omega) (by omega) (by rw [e4]; simp)
    (by rw [e1, e2, List.length_set]; omega)
  have hrun : rxLoop p ((slots ((gap, b) :: rest)).length + 19 + 1 + fuel) ⟨N, 0, 20, buf, w⟩
      = some st' := by
    rw [slots_length_cons, show gap + 1 + (slots rest).length + 19 + 1 + fuel
      = gap + (((slots rest).length + 19 + 1 + fuel) + 1) by omega, a1, rxLoop_pass p _ _ hc, h1]
  have hi' : st'.i = rest.length + 1 := by rw [h2, e1]; omega
  refine ⟨⟨RAD_OK, some st'.payload, some st'.i, st'.world⟩, st'.payload, ?_, rfl, ?_, rfl, ?_, ?_,
    ?_, ?_, ?_⟩
  · unfold ReceivePacket
    simp only [hp, hrun]
    rw [if_neg (by omega)]
  · simp only [hi']
  · rw [h3, e2, List.length_set]
  · rw [e1, e2] at h4
    rw [show rest.length + 1 = 1 + rest.length by omega, h4, take_set_succ b hlt]
    simp
  · show st'.world.fault = w.fault
    rw [h5, e5, a6]; simp [hlt]
  · show st'.world.now = _
    rw [h6, e6, a7, slots_length_cons]; omega
  · have : (fun t => sl (t + ((slots ((gap, b) :: rest)).length + 19)))
        = (fun t => (fun t => sl (t + (gap + 1))) (t + ((slots rest).length + 19))) := by
      funext t; rw [slots_length_cons]; exact congrArg sl (by omega)
    rw [this]; exact h7

theorem feeds_feedWorld (sl : List (Option Char)) :
    Feeds Port.command (feedWorld sl) (fun t => sl.getD t none) :=
  ⟨_, rfl, rfl, fun t => by simp [feedWorld, quietWorld]⟩

theorem feeds_quietWorld (p : Port) : Feeds p quietWorld (fun _ => none) := by
  cases p <;> exact ⟨quietPort, rfl, rfl, fun _ => rfl⟩

/-- A receive call on a port where no byte ever shows: the budget runs down, one sleep per
iteration, and the call fails without touching the caller's cells. -/
theorem ReceivePacket_timeout (p : Port) (buf : List Char) (size N fuel : Nat) (w : World)
    (hN : N < 4294967296) (hquiet : Feeds p w (fun _ => none)) (hfuel : N + 1 ≤ fuel) :
    ∃ w', ReceivePacket p (some buf) (some size) N fuel w
        = some ⟨RAD_ERROR, some buf, some size, w'⟩ ∧
      w'.fault = w.fault ∧ w'.now = w.now + N ∧ Feeds p w' (fun _ => none) := by
  obtain ⟨s, hp, _, _⟩ := id hquiet
  obtain ⟨st1, a1, a2, a3, a4, a5, a6, a7, a8⟩ :=
    rx_idle_unstarted p 1 N ⟨N, 0, 20, buf, w⟩ (fun _ => none) hquiet (fun _ _ => rfl)
      rfl rfl (Nat.le_refl _) hN
  simp only at a4 a5 a6 a7
  have hc : rxCond st1 = false := by
    simp only [rxCond, a2, a4]; simp
  have hrun : rxLoop p (N + 1) ⟨N, 0, 20, buf, w⟩ = some st1 := by
    rw [a1, rxLoop_exit p _ _ hc]
  have hrun2 := rxLoop_mono p (fuel - (N + 1)) _ _ _ hrun
  rw [show N + 1 + (fuel - (N + 1)) = fuel by omega] at hrun2
  refine ⟨st1.world, ?_, a6, a7, a8⟩
  unfold ReceivePacket
  simp only [hp, hrun2]
  rw [if_pos ⟨by omega, a2⟩, a5]

theorem cmdTx_afterSend (w : World) (s : HardwareSerial) (a frame : List Char) :
    cmdTx (afterSend w s a frame) = s.tx ++ [frame] := by
  unfold afterSend
  rw [cmdTx_delay]
  rfl

theorem cmdTx_of_some {w : World} {s : HardwareSerial} (hs : w.hSerialCommand = some s) :
    cmdTx w = s.tx := by
  simp [cmdTx, hs]

/-- The result of a receive call does not depend on how much fuel it was given. -/
theorem ReceivePacket_fuel_irrelevant {p : Port} {payload : Option (List Char)}
    {payloadSize : Option Nat} {timeout f1 f2 : Nat} {w : World} {r1 r2 : RxResult}
    (h1 : ReceivePacket p payload payloadSize timeout f1 w = some r1)
    (h2 : ReceivePacket p payload payloadSize timeout f2 w = some r2) : r1 = r2 := by
  rcases Nat.le_total f1 f2 with h | h
  · have := ReceivePacket_mono p payload payloadSize timeout f1 (f2 - f1) w r1 h1
    rw [show f1 + (f2 - f1) = f2 by omega, h2] at this
    exact (Option.some.inj this).symm
  · have := ReceivePacket_mono p payload payloadSize timeout f2 (f1 - f2) w r2 h2
    rw [show f2 + (f1 - f2) = f1 by omega, h1] at this
    exact Option.some.inj this

/-! ## What the receive loop and `delay` leave alone -/

theorem Keeps.refl (w : World) : Keeps w w := ⟨rfl, rfl, rfl, rfl⟩

theorem Keeps.trans {a b c : World} (h1 : Keeps a b) (h2 : Keeps b c) : Keeps a c :=
  ⟨h2.stack.trans h1.stack, h2.frames.trans h1.frames, h2.tx.trans h1.tx,
    h2.isOpen.trans h1.isOpen⟩

theorem keeps_delay1 (w : World) : Keeps w (delay1 w) :=
  ⟨rfl, rfl, cmdTx_delay1 w, by simp [delay1]⟩

theorem keeps_delay (ms : Nat) : ∀ w : World, Keeps w (delay ms w) := by
  induction ms with
  | zero => intro w; exact Keeps.refl w
  | succ n ih => intro w; exact (keeps_delay1 w).trans (ih (delay1 w))

theorem keeps_rxRead (p : Port) (st : RxState) : Keeps st.world (rxRead p st).world := by
  unfold rxRead
  cases hp : st.world.port p with
  | none =>
    simp only [hp]
    exact ⟨rfl, rfl, rfl, rfl⟩
  | some s =>
    simp only [hp]
    cases hrx : s.rx with
    | nil => simp only [hrx]; exact Keeps.refl _
    | cons b rest =>
      simp only [hrx]
      cases p
      · simp only [World.port] at hp
        split_ifs <;>
          exact ⟨rfl, rfl, by simp [cmdTx, World.setPort, hp], by simp [World.setPort, hp]⟩
      · split_ifs <;> exact ⟨rfl, rfl, rfl, rfl⟩

theorem keeps_rxStep (p : Port) (st : RxState) : Keeps st.world (rxStep p st).world := by
  have h1 := keeps_rxRead p st
  unfold rxStep
  simp only
  split_ifs <;> exact h1.trans (keeps_delay1 _)

theorem keeps_rxLoop (p : Port) :
    ∀ (fuel : Nat) (st st' : RxState), rxLoop p fuel st = some st' → Keeps st.world st'.world := by
  intro fuel
  induction fuel with
  | zero => intro st st' h; simp [rxLoop] at h
  | succ n ih =>
    intro st st' h
    by_cases hc : rxCond st = true
    · rw [rxLoop_pass p _ _ hc] at h
      exact (keeps_rxStep p st).trans (ih _ _ h)
    · simp only [Bool.not_eq_true] at hc
      rw [rxLoop_exit p _ _ hc] at h
      cases h
      exact Keeps.refl _

theorem keeps_ReceivePacket {p : Port} {payload : Option (List Char)} {payloadSize : Option Nat}
    {timeout fuel : Nat} {w : World} {r : RxResult}
    (h : ReceivePacket p payload payloadSize timeout fuel w = some r) : Keeps w r.world := by
  unfold ReceivePacket at h
  split at h
  · cases h; exact Keeps.refl _
  · cases h; exact Keeps.refl _
  · cases h; exact Keeps.refl _
  · rename_i buf size s hp
    cases hl : rxLoop p fuel ⟨timeout, 0, 20, buf, w⟩ with
    | none => simp [hl] at h
    | some st =>
      have hk := keeps_rxLoop p _ _ _ hl
      simp only [hl] at h
      split_ifs at h <;> cases h <;> exact hk

/-! ## One status poll -/

theorem flush_loop_nil (rx : List Char) : SerialFlush.loop rx = [] := by
  induction rx with
  | nil => rfl
  | cons _ rest ih => simpa [SerialFlush.loop] using ih

theorem feeds_none_delay1 {p : Port} {w : World} (h : Feeds p w (fun _ => none)) :
    Feeds p (delay1 w) (fun _ => none) := by
  obtain ⟨s, hp, hrx, hw⟩ := h
  have hF := @Feeds.step p w (fun _ => none) s hp hw
  have hs : ({ s with rx := [] } : HardwareSerial) = s := by cases s; simp_all
  rw [hs, setPort_self hp] at hF
  exact hF

theorem feeds_none_delay {p : Port} (ms : Nat) :
    ∀ w : World, Feeds p w (fun _ => none) → Feeds p (delay ms w) (fun _ => none) := by
  induction ms with
  | zero => intro w h; exact h
  | succ n ih => intro w h; exact ih _ (feeds_none_delay1 h)

theorem silent_delay1 {w : World} (h : Silent w) : Silent (delay1 w) := by
  obtain ⟨s, hs, hw⟩ := h
  refine ⟨s.tick w.now, by simp [delay1, hs], ?_⟩
  intro t
  have := hw (1 + t)
  simpa [delay1, HardwareSerial.tick, Nat.add_assoc] using this

theorem silent_delay (ms : Nat) : ∀ w : World, Silent w → Silent (delay ms w) := by
  induction ms with
  | zero => intro w h; exact h
  | succ n ih => intro w h; exact ih _ (silent_delay1 h)

attribute [irreducible] delay

theorem keeps_afterSend (w : World) (s : HardwareSerial) (a frame : List Char) :
    (afterSend w s a frame).stack = w.stack ∧ (afterSend w s a frame).frames = w.frames ∧
      (afterSend w s a frame).hSerialCommand.isSome = true := by
  have h := keeps_delay 500
    { w with array := a, hSerialCommand := some { s with tx := s.tx ++ [frame] } }
  exact ⟨h.stack, h.frames, h.isOpen⟩

/-- The frame of the join-status query. -/
theorem njs_frame : "AT+".toList ++ mnemonic AT_NJS ++ "=?\r\n".toList = "AT+NJS=?\r\n".toList := by
  decide

/-- The frame of the join trigger. -/
theorem join_frame : "AT+".toList ++ mnemonic AT_JOIN ++ "\r\n".toList = "AT+JOIN\r\n".toList := by
  decide

/-- The world in which `IsJoined` starts to receive: the FIFO flushed, the query sent, the
settle delay over. -/
theorem IsJoined_unfold (fuel : Nat) (w : World) (s : HardwareSerial)
    (hs : w.hSerialCommand = some s) :
    ∃ a, IsJoined fuel w =
      match ReceivePacketCommand (some ((List.range 8).map (w.stack w.frames)))
          (some ((w.stack w.frames 8).toNat % 256)) 500 fuel
          (afterSend { w with frames := w.frames + 1, hSerialCommand := some { s with rx := [] } }
            { s with rx := [] } a "AT+NJS=?\r\n".toList) with
      | none => none
      | some r =>
        match r.payload with
        | some (c :: _) => if c = '1' then some (RAD_OK, r.world) else some (RAD_ERROR, r.world)
        | _ => some (RAD_ERROR, r.world) := by
  have hflush : SerialFlush Port.command { w with frames := w.frames + 1 }
      = { w with frames := w.frames + 1, hSerialCommand := some { s with rx := [] } } := by
    simp [SerialFlush, World.port, World.setPort, hs, flush_loop_nil]
  obtain ⟨a, _, hsend⟩ := @SendAtCommand_get
    { w with frames := w.frames + 1, hSerialCommand := some { s with rx := [] } }
    { s with rx := [] } AT_NJS none (by decide) rfl
  refine ⟨a, ?_⟩
  unfold IsJoined
  simp only [hflush, hsend, njs_frame]

/-- A poll with the Command port open: one more activation, one more write, the query. -/
theorem IsJoined_effect {fuel : Nat} {w w' : World} {st : Status_Typedef} {s : HardwareSerial}
    (hs : w.hSerialCommand = some s) (h : IsJoined fuel w = some (st, w')) :
    cmdTx w' = cmdTx w ++ ["AT+NJS=?\r\n".toList] ∧ w'.hSerialCommand.isSome = true ∧
      w'.frames = w.frames + 1 ∧ w'.stack = w.stack := by
  obtain ⟨a, hu⟩ := IsJoined_unfold fuel w s hs
  rw [hu] at h
  obtain ⟨k1, k2, k3⟩ := keeps_afterSend
    { w with frames := w.frames + 1, hSerialCommand := some { s with rx := [] } }
    { s with rx := [] } a "AT+NJS=?\r\n".toList
  have k4 := cmdTx_afterSend
    { w with frames := w.frames + 1, hSerialCommand := some { s with rx := [] } }
    { s with rx := [] } a "AT+NJS=?\r\n".toList
  split at h
  · simp at h
  · rename_i r hr
    have hk := keeps_ReceivePacket hr
    have hw' : w' = r.world := by
      split at h
      · split_ifs at h <;> cases h <;> rfl
      · cases h; rfl
    subst hw'
    refine ⟨?_, ?_, ?_, ?_⟩
    · rw [hk.tx, k4, cmdTx_of_some hs]
    · rw [hk.isOpen, k3]
    · rw [hk.frames, k2]
    · rw [hk.stack, k1]

/-- A poll on a silent Command port: the receive times out, and the status is decided by what
the stack held where `response[0]` is. -/
theorem IsJoined_silent {fuel : Nat} {w : World} (hq : Silent w) (hfuel : 501 ≤ fuel) :
    ∃ w', IsJoined fuel w
        = some (if w.stack w.frames 0 = '1' then RAD_OK else RAD_ERROR, w') ∧ Silent w' := by
  obtain ⟨s, hs, hw⟩ := hq
  obtain ⟨a, hu⟩ := IsJoined_unfold fuel w s hs
  have hF : Feeds Port.command
      (afterSend { w with frames := w.frames + 1, hSerialCommand := some { s with rx := [] } }
        { s with rx := [] } a "AT+NJS=?\r\n".toList) (fun _ => none) := by
    unfold afterSend
    apply feeds_none_delay
    exact ⟨_, rfl, rfl, hw⟩
  obtain ⟨w', h1, _, _, h4⟩ := ReceivePacket_timeout Port.command
    ((List.range 8).map (w.stack w.frames)) ((w.stack w.frames 8).toNat % 256) 500 fuel _
    (by decide) hF hfuel
  refine ⟨w', ?_, ?_⟩
  · rw [hu]
    unfold ReceivePacketCommand
    rw [h1]
    simp only [show List.range 8 = [0, 1, 2, 3, 4, 5, 6, 7] by decide, List.map_cons]
    split_ifs <;> rfl
  · obtain ⟨s', hp, _, hw'⟩ := h4
    exact ⟨s', hp, hw'⟩

/-! ## The retry loop -/

/-- The join trigger and the 15 s wait with the Command port open: one more write. -/
theorem trigger_effect {w : World} {s : HardwareSerial} (hs : w.hSerialCommand = some s) :
    cmdTx (delay 15000 (SendAtCommand AT_JOIN AtRun none w).2)
        = cmdTx w ++ ["AT+JOIN\r\n".toList] ∧
      (delay 15000 (SendAtCommand AT_JOIN AtRun none w).2).hSerialCommand.isSome = true := by
  obtain ⟨a, _, hsend⟩ := @SendAtCommand_run w s AT_JOIN none (by decide) hs
  rw [hsend, join_frame]
  have hk := keeps_delay 15000 (afterSend w s a "AT+JOIN\r\n".toList)
  exact ⟨by rw [hk.tx, cmdTx_afterSend, cmdTx_of_some hs],
    by rw [hk.isOpen]; exact (keeps_afterSend w s a _).2.2⟩

theorem loop_succ (fuel retries k remaining : Nat) (w : World) :
    JoinNetwork.loop fuel retries (k + 1) remaining w =
      match IsJoined fuel w with
      | none => none
      | some (st, w) =>
        if st ≠ RAD_OK ∧ (retries = 0 ∨ remaining > 0) then
          JoinNetwork.loop fuel retries k
            (if remaining ≠ 0 then (remaining + 65535) % 65536 else remaining)
            (delay 15000 (SendAtCommand AT_JOIN AtRun none w).2)
        else some w := rfl

theorem pollStatus_zero {fuel : Nat} {w : World} {st : Status_Typedef}
    (h : pollStatus fuel 0 w = some st) : ∃ w1, IsJoined fuel w = some (st, w1) := by
  simp only [pollStatus, pollWorld, Option.some_bind] at h
  cases hj : IsJoined fuel w with
  | none => simp [hj] at h
  | some r =>
    obtain ⟨st', w1⟩ := r
    simp [hj] at h
    exact ⟨w1, by rw [h]⟩

theorem pollStatus_succ {fuel j : Nat} {w w2 : World} (h : afterRetry fuel w = some w2) :
    pollStatus fuel (j + 1) w = pollStatus fuel j w2 := by
  simp [pollStatus, pollWorld, h]

theorem finalStatus_succ {fuel j : Nat} {w w2 : World} (h : afterRetry fuel w = some w2) :
    finalStatus fuel (j + 1) w = finalStatus fuel j w2 := by
  simp [finalStatus, pollWorld, h]

/-- As long as the polls report not joined and a retry is allowed, the loop goes from one
poll to the next, with one join trigger and one status query each time. -/
theorem loop_retries (fuel retries k : Nat) :
    ∀ (m : Nat) (w : World) (remaining : Nat), w.hSerialCommand.isSome = true →
      (∀ j, j < m → pollStatus fuel j w = some RAD_ERROR) →
      (retries = 0 ∨ m ≤ remaining) → remaining < 65536 →
      ∃ wm, JoinNetwork.loop fuel retries (m + k) remaining w
            = JoinNetwork.loop fuel retries k (remaining - m) wm ∧
        pollStatus fuel m w = pollStatus fuel 0 wm ∧
        finalStatus fuel m w = finalStatus fuel 0 wm ∧
        joinTriggers wm = joinTriggers w + m ∧ statusPolls wm = statusPolls w + m ∧
        wm.hSerialCommand.isSome = true := by
  intro m
  induction m with
  | zero =>
    intro w remaining ho _ _ _
    exact ⟨w, by simp, rfl, rfl, rfl, rfl, ho⟩
  | succ n ih =>
    intro w remaining ho hp ha hr
    obtain ⟨w1, hj⟩ := pollStatus_zero (hp 0 (by omega))
    obtain ⟨s, hs⟩ := Option.isSome_iff_exists.mp ho
    obtain ⟨t1, o1, _, _⟩ := IsJoined_effect hs hj
    obtain ⟨s1, hs1⟩ := Option.isSome_iff_exists.mp o1
    obtain ⟨t2, o2⟩ := trigger_effect hs1
    have hnext : afterRetry fuel w = some (delay 15000 (SendAtCommand AT_JOIN AtRun none w1).2) := by
      simp [afterRetry, hj]
    obtain ⟨wm, h1, h2, h3, h4, h5, h6⟩ :=
      ih (delay 15000 (SendAtCommand AT_JOIN AtRun none w1).2) (remaining - 1) o2
        (fun j hjn => by rw [← pollStatus_succ hnext]; exact hp (j + 1) (by omega))
        (by omega) (by omega)
    refine ⟨wm, ?_, ?_, ?_, ?_, ?_, h6⟩
    · rw [show n + 1 + k = (n + k) + 1 by omega]
      have hrem : (if remaining ≠ 0 then (remaining + 65535) % 65536 else remaining)
          = remaining - 1 := by
        split_ifs <;> omega
      have hcond : (RAD_ERROR ≠ RAD_OK ∧ (retries = 0 ∨ remaining > 0)) := by
        refine ⟨by decide, ?_⟩
        omega
      rw [loop_succ]
      simp only [hj, if_pos hcond, hrem, h1]
      rw [show remaining - 1 - n = remaining - (n + 1) by omega]
    · rw [pollStatus_succ hnext, h2]
    · rw [finalStatus_succ hnext, h3]
    · rw [h4]
      simp only [joinTriggers, t2, t1, List.count_append]
      have e1 : List.count "AT+JOIN\r\n".toList ["AT+NJS=?\r\n".toList] = 0 := by decide
      have e2 : List.count "AT+JOIN\r\n".toList ["AT+JOIN\r\n".toList] = 1 := by decide
      rw [e1, e2]; omega
    · rw [h5]
      simp only [statusPolls, t2, t1, List.count_append]
      have e1 : List.count "AT+NJS=?\r\n".toList ["AT+NJS=?\r\n".toList] = 1 := by decide
      have e2 : List.count "AT+NJS=?\r\n".toList ["AT+JOIN\r\n".toList] = 0 := by decide
      rw [e1, e2]; omega

/-- A run of `JoinNetwork`: `m` polls that report not joined and are followed by a retry,
a poll that ends the loop, and the poll of the `return`. -/
theorem JoinNetwork_run (retries fuel m : Nat) (w : World) (st fs : Status_Typedef)
    (hr : retries < 65536) (hopen : w.hSerialCommand.isSome = true)
    (hfail : ∀ j, j < m → pollStatus fuel j (delay 4000 w) = some RAD_ERROR)
    (hallow : retries = 0 ∨ m ≤ retries)
    (hend : pollStatus fuel m (delay 4000 w) = some st)
    (hexit : st = RAD_OK ∨ (retries ≠ 0 ∧ m = retries))
    (hfin : finalStatus fuel m (delay 4000 w) = some fs) (hfuel : m + 1 ≤ fuel) :
    ∃ w', JoinNetwork retries fuel w = some (fs, w') ∧
      joinTriggers w' = joinTriggers w + m ∧ statusPolls w' = statusPolls w + (m + 2) := by
  have hk := keeps_delay 4000 w
  obtain ⟨wm, h1, h2, h3, h4, h5, h6⟩ := loop_retries fuel retries (fuel - m) m (delay 4000 w)
    retries (by rw [hk.isOpen]; exact hopen) hfail hallow hr
  rw [show m + (fuel - m) = fuel by omega] at h1
  rw [h2] at hend
  rw [h3] at hfin
  obtain ⟨w1, hj⟩ := pollStatus_zero hend
  obtain ⟨s, hs⟩ := Option.isSome_iff_exists.mp h6
  obtain ⟨t1, o1, _, _⟩ := IsJoined_effect hs hj
  obtain ⟨s1, hs1⟩ := Option.isSome_iff_exists.mp o1
  have hfin2 : ∃ w2, IsJoined fuel w1 = some (fs, w2) := by
    simp only [finalStatus, pollWorld, Option.some_bind, hj] at hfin
    cases hj2 : IsJoined fuel w1 with
    | none => simp [hj2] at hfin
    | some r =>
      obtain ⟨st', w2⟩ := r
      simp [hj2] at hfin
      exact ⟨w2, by rw [hfin]⟩
  obtain ⟨w2, hj2⟩ := hfin2
  obtain ⟨t2, _, _, _⟩ := IsJoined_effect hs1 hj2
  have hloop : JoinNetwork.loop fuel retries (fuel - m) (retries - m) wm = some w1 := by
    rw [show fuel - m = (fuel - m - 1) + 1 by omega, loop_succ]
    simp only [hj]
    rw [if_neg]
    rintro ⟨hne, hor⟩
    rcases hexit with h | ⟨h, h'⟩
    · exact hne h
    · rcases hor with h0 | h0
      · exact h h0
      · omega
  refine ⟨w2, ?_, ?_, ?_⟩
  · unfold JoinNetwork
    simp only [h1, hloop, hj2]
  · simp only [joinTriggers] at h4 ⊢
    rw [t2, t1, List.count_append, List.count_append, h4, hk.tx]
    have e1 : List.count "AT+JOIN\r\n".toList ["AT+NJS=?\r\n".toList] = 0 := by decide
    rw [e1]; omega
  · simp only [statusPolls] at h5 ⊢
    rw [t2, t1, List.count_append, List.count_append, h5, hk.tx]
    have e1 : List.count "AT+NJS=?\r\n".toList ["AT+NJS=?\r\n".toList] = 1 := by decide
    rw [e1]; omega

/-! ## Runs on a silent Command port -/

theorem silent_afterRetry {fuel : Nat} {w : World} (hq : Silent w) (hfuel : 501 ≤ fuel) :
    ∃ w2, afterRetry fuel w = some w2 ∧ Silent w2 ∧ w2.frames = w.frames + 1 ∧
      w2.stack = w.stack := by
  obtain ⟨w1, hj, hq1⟩ := IsJoined_silent hq hfuel
  obtain ⟨s, hs, _⟩ := id hq
  obtain ⟨_, _, f1, k1⟩ := IsJoined_effect hs hj
  obtain ⟨s1, hs1, hw1⟩ := hq1
  obtain ⟨a, _, hsend⟩ := @SendAtCommand_run w1 s1 AT_JOIN none (by decide) hs1
  refine ⟨delay 15000 (SendAtCommand AT_JOIN AtRun none w1).2, by simp [afterRetry, hj], ?_, ?_, ?_⟩
  · rw [hsend]
    apply silent_delay
    unfold afterSend
    apply silent_delay
    exact ⟨_, rfl, hw1⟩
  · rw [(keeps_delay 15000 _).frames, hsend, (keeps_afterSend _ _ _ _).2.1, f1]
  · rw [(keeps_delay 15000 _).stack, hsend, (keeps_afterSend _ _ _ _).1, k1]

/-- On a silent Command port every poll is decided by what the stack holds in its
activation. -/
theorem silent_status {fuel : Nat} (hfuel : 501 ≤ fuel) :
    ∀ (j : Nat) (w : World), Silent w →
      pollStatus fuel j w
          = some (if w.stack (w.frames + j) 0 = '1' then RAD_OK else RAD_ERROR) ∧
        finalStatus fuel j w
          = some (if w.stack (w.frames + j + 1) 0 = '1' then RAD_OK else RAD_ERROR) := by
  intro j
  induction j with
  | zero =>
    intro w hq
    obtain ⟨w1, hj, hq1⟩ := IsJoined_silent hq hfuel
    obtain ⟨s, hs, _⟩ := id hq
    obtain ⟨_, _, f1, k1⟩ := IsJoined_effect hs hj
    obtain ⟨w2, hj2, _⟩ := IsJoined_silent hq1 hfuel
    refine ⟨by simp [pollStatus, pollWorld, hj], ?_⟩
    simp only [finalStatus, pollWorld, Option.some_bind, hj, hj2, Option.map_some', f1, k1,
      Nat.add_zero]
  | succ n ih =>
    intro w hq
    obtain ⟨w2, h1, h2, h3, h4⟩ := silent_afterRetry hq hfuel
    obtain ⟨i1, i2⟩ := ih w2 h2
    rw [pollStatus_succ h1, finalStatus_succ h1, i1, i2, h3, h4,
      show w.frames + 1 + n = w.frames + (n + 1) by omega]
    exact ⟨rfl, rfl⟩

theorem silent_quietWorld : Silent quietWorld := ⟨quietPort, rfl, fun _ => rfl⟩

theorem silent_staleWorld (k : Nat) : Silent (staleWorld k) := ⟨quietPort, rfl, fun _ => rfl⟩

/-- On the silent world with a zeroed stack every poll of a run reports not joined. -/
theorem quiet_status (j : Nat) :
    pollStatus 600 j (delay 4000 quietWorld) = some RAD_ERROR ∧
      finalStatus 600 j (delay 4000 quietWorld) = some RAD_ERROR := by
  have h := silent_status (show 501 ≤ 600 by decide) j _ (silent_delay 4000 _ silent_quietWorld)
  have hk := keeps_delay 4000 quietWorld
  rw [hk.stack, hk.frames] at h
  exact h

/-- On the silent world with a stale `1` on the stack from activation `k` on, polls report
joined from poll `k` on. -/
theorem stale_status (k j : Nat) :
    pollStatus 600 j (delay 4000 (staleWorld k))
        = some (if j + 1 < k then RAD_ERROR else RAD_OK) ∧
      finalStatus 600 j (delay 4000 (staleWorld k))
        = some (if j + 1 + 1 < k then RAD_ERROR else RAD_OK) := by
  have h := silent_status (show 501 ≤ 600 by decide) j _
    (silent_delay 4000 _ (silent_staleWorld k))
  have hk := keeps_delay 4000 (staleWorld k)
  rw [hk.stack, hk.frames] at h
  have e0 : (staleWorld k).frames = 0 := rfl
  have e1 : ∀ f, (staleWorld k).stack f 0 = if f + 1 < k then '0' else '1' := fun _ => rfl
  rw [e0, e1, e1] at h
  simp only [Nat.zero_add] at h
  refine ⟨?_, ?_⟩
  · rw [h.1]; split_ifs <;> simp_all
  · rw [h.2]; split_ifs <;> simp_all

/-! ## A `Set` command followed by a pause -/

theorem set_then_delay {w : World} (ms c : Nat) (v : List Char)
    (hopen : w.hSerialCommand.isSome = true) (hc : c < NUMBER_OF_COMMANDS)
    (hlen : 3 + (mnemonic c).length + 1 + v.length + 2 ≤ 255) :
    cmdTx (delay ms (SendAtCommand c AtSet (some v) w).2)
        = cmdTx w ++ ["AT+".toList ++ mnemonic c ++ "=".toList ++ v ++ "\r\n".toList] ∧
      (delay ms (SendAtCommand c AtSet (some v) w).2).hSerialCommand.isSome = true := by
  obtain ⟨s, hs⟩ := Option.isSome_iff_exists.mp hopen
  obtain ⟨a, _, hsend⟩ := @SendAtCommand_set w s c v hc hs hlen
  rw [hsend]
  have hk := keeps_delay ms (afterSend w s a
    ("AT+".toList ++ mnemonic c ++ "=".toList ++ v ++ "\r\n".toList))
  exact ⟨by rw [hk.tx, cmdTx_afterSend, cmdTx_of_some hs],
    by rw [hk.isOpen]; exact (keeps_afterSend w s a _).2.2⟩

/-! ## The status of `SendAtCommand` -/

/-- The only status `SendAtCommand` returns is `RAD_ERROR`, for a `Set` with `NULL`, an id
beyond the catalog or a command type that is none of the three; otherwise it ends without a
`return`. -/
theorem SendAtCommand_status (c : Nat) (t : CommandType_e) (payload : Option (List Char))
    (w : World) :
    (SendAtCommand c t payload w).1
      = if (payload = none ∧ t = AtSet) ∨ NUMBER_OF_COMMANDS ≤ c ∨ t = AtInvalid
        then some RAD_ERROR else none := by
  unfold SendAtCommand
  by_cases h1 : payload = none ∧ t = AtSet
  · rw [if_pos (by simpa using h1), if_pos (Or.inl h1)]
  · rw [if_neg (by simpa using h1)]
    simp only
    by_cases h2 : NUMBER_OF_COMMANDS ≤ c
    · rw [if_pos h2, if_pos (Or.inr (Or.inl h2))]
    · rw [if_neg h2]
      cases t with
      | AtGet => rw [if_neg (by simp [h1, h2])]; rfl
      | AtSet => rw [if_neg (by simp [h2]; simpa using h1)]; rfl
      | AtRun => rw [if_neg (by simp [h1, h2])]; rfl
      | AtInvalid => rw [if_pos (by simp)]

/-! ## Frames whose bytes come one per iteration -/

theorem slots_consecutive (bytes : List Char) :
    (slots (bytes.map (fun b => (0, b)))).length = bytes.length := by
  induction bytes with
  | nil => rfl
  | cons b rest ih => simp [slots, ih]

theorem carries_consecutive :
    ∀ (bytes : List Char) (sl : Nat → Option Char), (∀ t, sl t = bytes[t]?) →
      Carries sl (bytes.map (fun b => (0, b))) := by
  intro bytes
  induction bytes with
  | nil =>
    intro sl h t _
    rw [h t]
    rfl
  | cons b rest ih =>
    intro sl h
    refine ⟨fun t ht => absurd ht (Nat.not_lt_zero t), by rw [h 0]; simp, ?_⟩
    exact ih _ (fun t => by rw [h (t + (0 + 1))]; simp)

theorem getD_map_some (bytes : List Char) (t : Nat) :
    (bytes.map some).getD t none = bytes[t]? := by
  rw [List.getD_eq_getElem?_getD, List.getElem?_map]
  cases bytes[t]? <;> rfl

theorem feeds_bytes (bytes : List Char) :
    Feeds Port.command (feedWorld (bytes.map some)) (fun t => bytes[t]?) := by
  obtain ⟨s, h1, h2, h3⟩ := feeds_feedWorld (bytes.map some)
  refine ⟨s, h1, ?_, ?_⟩
  · rw [h2]; simp only [getD_map_some]
  · intro t; rw [h3 t]; simp only [getD_map_some]

/-! ## An invariant of the receive loop -/

theorem rxRead_cases (p : Port) (st : RxState) :
    ((rxRead p st).i = st.i ∧ (rxRead p st).waitNextByte = st.waitNextByte) ∨
      ((rxRead p st).i = (st.i + 1) % 256 ∧ (rxRead p st).waitNextByte = 20) := by
  unfold rxRead
  cases hp : st.world.port p with
  | none => simp
  | some s =>
    cases hrx : s.rx with
    | nil => simp [hrx]
    | cons b rest => simp [hrx]

theorem rxStep_counters (p : Port) (st : RxState) :
    (rxStep p st).i = (rxRead p st).i ∧
      (rxStep p st).waitNextByte
        = (if (rxRead p st).i > 0 then ((rxRead p st).waitNextByte + 65535) % 65536
            else (rxRead p st).waitNextByte) := by
  unfold rxStep
  simp only
  split_ifs <;> exact ⟨rfl, rfl⟩

/-- While the byte counter is 0 the idle budget is untouched: one pass keeps that. -/
theorem rxStep_counter_zero (p : Port) (st : RxState)
    (h : st.i = 0 → st.waitNextByte = 20) :
    (rxStep p st).i = 0 → (rxStep p st).waitNextByte = 20 := by
  obtain ⟨e1, e2⟩ := rxStep_counters p st
  intro h0
  rw [e1] at h0
  rw [e2, if_neg (by omega)]
  rcases rxRead_cases p st with ⟨c1, c2⟩ | ⟨_, c2⟩
  · rw [c2]; exact h (by rw [← c1]; exact h0)
  · exact c2

/-- A receive loop that ends with its byte counter at 0 has used up its budget. -/
theorem rxLoop_counter_zero (p : Port) :
    ∀ (fuel : Nat) (st st' : RxState), rxLoop p fuel st = some st' →
      (st.i = 0 → st.waitNextByte = 20) →
      rxCond st' = false ∧ (st'.i = 0 → st'.waitNextByte = 20) := by
  intro fuel
  induction fuel with
  | zero => intro st st' h; simp [rxLoop] at h
  | succ n ih =>
    intro st st' h hinv
    by_cases hc : rxCond st = true
    · rw [rxLoop_pass p _ _ hc] at h
      exact ih _ _ h (rxStep_counter_zero p st hinv)
    · simp only [Bool.not_eq_true] at hc
      rw [rxLoop_exit p _ _ hc] at h
      cases h
      exact ⟨hc, hinv⟩

/-! ## The command in a frame -/

theorem takeWhile_stem (m rest : List Char) (x : Char)
    (hm : ∀ ch ∈ m, (ch != '=' && ch != '\r') = true) (hx : (x != '=' && x != '\r') = false) :
    (m ++ x :: rest).takeWhile (fun ch => ch != '=' && ch != '\r') = m := by
  induction m with
  | nil => simp [List.takeWhile, hx]
  | cons a tl ih =>
    have ha := hm a (List.mem_cons_self _ _)
    rw [List.cons_append, List.takeWhile_cons, ha]
    simp only [if_true]
    rw [ih (fun ch hch => hm ch (List.mem_cons_of_mem _ hch))]

theorem mnemonic_chars (c : Nat) (hc : c < NUMBER_OF_COMMANDS) :
    ∀ ch ∈ mnemonic c, (ch != '=' && ch != '\r') = true := by
  unfold NUMBER_OF_COMMANDS at hc
  interval_cases c <;> decide

theorem mnemonic_injective :
    ∀ c1, c1 < NUMBER_OF_COMMANDS → ∀ c2, c2 < NUMBER_OF_COMMANDS →
      mnemonic c1 = mnemonic c2 → c1 = c2 := by
  decide!

/-- The stem of a frame built for a valid command is its mnemonic. -/
theorem frameStem_atFrame (c : Nat) (t : CommandType_e) (payload : Option (List Char))
    (hc : c < NUMBER_OF_COMMANDS) : frameStem (atFrame c t payload) = mnemonic c := by
  have hm := mnemonic_chars c hc
  unfold frameStem atFrame
  have h3 : ("AT+".toList ++ mnemonic c ++
      (match t, payload with
        | AtGet, _ => "=?".toList
        | AtSet, some v => '=' :: v
        | _, _ => []) ++ "\r\n".toList).drop 3
      = mnemonic c ++ ((match t, payload with
        | AtGet, _ => "=?".toList
        | AtSet, some v => '=' :: v
        | _, _ => []) ++ "\r\n".toList) := by
    rw [List.append_assoc, List.append_assoc]
    exact List.drop_left' rfl
  rw [h3]
  cases t with
  | AtGet => exact takeWhile_stem _ _ '=' hm (by decide)
  | AtSet =>
    cases payload with
    | none => exact takeWhile_stem _ _ '\r' hm (by decide)
    | some v => exact takeWhile_stem _ _ '=' hm (by decide)
  | AtRun => exact takeWhile_stem _ _ '\r' hm (by decide)
  | AtInvalid => exact takeWhile_stem _ _ '\r' hm (by decide)

/-- Frames built for valid commands are equal only for the same command. -/
theorem atFrame_command (c1 c2 : Nat) (t1 t2 : CommandType_e) (p1 p2 : Option (List Char))
    (h1 : c1 < NUMBER_OF_COMMANDS) (h2 : c2 < NUMBER_OF_COMMANDS)
    (h : atFrame c1 t1 p1 = atFrame c2 t2 p2) : c1 = c2 := by
  have e := congrArg frameStem h
  rw [frameStem_atFrame c1 t1 p1 h1, frameStem_atFrame c2 t2 p2 h2] at e
  exact mnemonic_injective c1 h1 c2 h2 e

/-- A call that the encoder accepts, with a frame of at most 255 bytes and the Command port
open, makes one write, of the frame. -/
theorem SendAtCommand_atFrame {w : World} (c : Nat) (t : CommandType_e)
    (payload : Option (List Char)) (hc : c < NUMBER_OF_COMMANDS) (ht : t ≠ AtInvalid)
    (hp : t = AtSet → payload ≠ none) (hopen : w.hSerialCommand.isSome = true)
    (hlen : (atFrame c t payload).length ≤ 255) :
    cmdTx (SendAtCommand c t payload w).2 = cmdTx w ++ [atFrame c t payload] := by
  obtain ⟨s, hs⟩ := Option.isSome_iff_exists.mp hopen
  cases t with
  | AtGet =>
    obtain ⟨a, _, e⟩ := @SendAtCommand_get w s c payload hc hs
    rw [e, cmdTx_afterSend, cmdTx_of_some hs]
    simp [atFrame]
  | AtRun =>
    obtain ⟨a, _, e⟩ := @SendAtCommand_run w s c payload hc hs
    rw [e, cmdTx_afterSend, cmdTx_of_some hs]
    simp [atFrame]
  | AtSet =>
    cases payload with
    | none => exact absurd rfl (hp rfl)
    | some v =>
      obtain ⟨a, _, e⟩ := @SendAtCommand_set w s c v hc hs (by
        simp [atFrame] at hlen
        omega)
      rw [e, cmdTx_afterSend, cmdTx_of_some hs]
      simp [atFrame]
  | AtInvalid => exact absurd rfl ht

/-- Two calls that the encoder accepts, with frames of at most 255 bytes, write the same bytes
only for the same command. -/
theorem SendAtCommand_command_of_frame {w : World} (c1 c2 : Nat) (t1 t2 : CommandType_e)
    (p1 p2 : Option (List Char)) (h1 : c1 < NUMBER_OF_COMMANDS) (h2 : c2 < NUMBER_OF_COMMANDS)
    (ht1 : t1 ≠ AtInvalid) (ht2 : t2 ≠ AtInvalid) (hp1 : t1 = AtSet → p1 ≠ none)
    (hp2 : t2 = AtSet → p2 ≠ none) (hopen : w.hSerialCommand.isSome = true)
    (hl1 : (atFrame c1 t1 p1).length ≤ 255) (hl2 : (atFrame c2 t2 p2).length ≤ 255)
    (h : cmdTx (SendAtCommand c1 t1 p1 w).2 = cmdTx (SendAtCommand c2 t2 p2 w).2) : c1 = c2 := by
  rw [SendAtCommand_atFrame c1 t1 p1 h1 ht1 hp1 hopen hl1,
    SendAtCommand_atFrame c2 t2 p2 h2 ht2 hp2 hopen hl2] at h
  have e := List.append_cancel_left h
  exact atFrame_command c1 c2 t1 t2 p1 p2 h1 h2 (List.singleton_inj.mp e)

/-! ## `SendString` with a payload that leaves room -/

theorem writePayload_over (cs : List Char) :
    ∀ (pre old rest : List Char) (w : World), w.g_payload = pre ++ old ++ rest →
      old.length = cs.length → pre.length + cs.length ≤ BUFFER_SIZE →
      w.writePayload pre.length cs = { w with g_payload := pre ++ cs ++ rest } := by
  induction cs with
  | nil =>
    intro pre old rest w hg ho _
    have : old = [] := List.eq_nil_of_length_eq_zero (by simpa using ho)
    subst this
    simp only [World.writePayload, List.append_nil] at hg ⊢
    rw [← hg]
  | cons c tl ih =>
    intro pre old rest w hg ho hle
    cases old with
    | nil => simp at ho
    | cons o old' =>
      simp only [List.length_cons] at ho hle
      have hstore : w.storePayload pre.length c
          = { w with g_payload := (pre ++ [c]) ++ old' ++ rest } := by
        unfold World.storePayload
        rw [if_pos (by omega), hg, List.append_assoc,
          List.set_append_right _ _ (Nat.le_refl _)]
        simp
      have h2 := ih (pre ++ [c]) old' rest { w with g_payload := (pre ++ [c]) ++ old' ++ rest }
        rfl (by omega) (by simp only [List.length_append, List.length_singleton]; omega)
      simp only [List.length_append, List.length_singleton] at h2
      rw [World.writePayload, hstore, h2]
      simp

theorem takeWhile_until (q : Char → Bool) (m rest : List Char) (x : Char)
    (hm : ∀ ch ∈ m, q ch = true) (hx : q x = false) :
    (m ++ x :: rest).takeWhile q = m := by
  induction m with
  | nil => simp [List.takeWhile, hx]
  | cons a tl ih =>
    have ha := hm a (List.mem_cons_self _ _)
    rw [List.cons_append, List.takeWhile_cons, ha]
    simp only [if_true]
    rw [ih (fun ch hch => hm ch (List.mem_cons_of_mem _ hch))]

theorem decimal_uint8 :
    ∀ port, port < 256 →
      (decimal port).length ≤ 3 ∧ ∀ ch ∈ decimal port, ch ≠ Char.ofNat 0 := by
  decide!

/-- A payload without NUL that leaves room for the port, the colon and the framing: the
`sprintf` stays inside `g_payload`, the frame stays inside the transmit buffer, and one write
carries `AT+SEND=`, the port in decimal, the colon, the payload and the line end. -/
theorem SendString_frame (s : List Char) (port : Nat) (w : World)
    (hopen : w.hSerialCommand.isSome = true) (hg : w.g_payload.length = BUFFER_SIZE)
    (hport : port ≤ 255) (hnul : ∀ ch ∈ s, ch ≠ Char.ofNat 0)
    (hlen : 8 + (decimal port).length + 1 + s.length + 2 ≤ 255) :
    cmdTx (SendString (some s) port w).2
        = cmdTx w ++ ["AT+SEND=".toList ++ decimal port ++ ":".toList ++ s ++ "\r\n".toList] ∧
      (SendString (some s) port w).2.fault = w.fault := by
  have hB : BUFFER_SIZE = 256 := rfl
  obtain ⟨hd1, hd2⟩ := decimal_uint8 port (by omega)
  have hcs : (decimal port ++ ":".toList ++ s ++ [Char.ofNat 0]).length
      = (decimal port).length + 1 + s.length + 1 := by
    simp
    omega
  have hsplit : w.g_payload = [] ++
      w.g_payload.take ((decimal port).length + 1 + s.length + 1)
      ++ w.g_payload.drop ((decimal port).length + 1 + s.length + 1) := by
    simp
  have hw1 := writePayload_over (decimal port ++ ":".toList ++ s ++ [Char.ofNat 0]) [] _ _ w
    hsplit (by rw [List.length_take, hcs]; omega) (by rw [hcs]; simp; omega)
  simp only [List.length_nil, List.nil_append] at hw1
  have hstr : cstring (decimal port ++ ":".toList ++ s ++ [Char.ofNat 0]
      ++ w.g_payload.drop ((decimal port).length + 1 + s.length + 1))
      = decimal port ++ ":".toList ++ s := by
    unfold cstring
    rw [List.append_assoc _ [Char.ofNat 0], List.singleton_append]
    apply takeWhile_until
    · intro ch hch
      simp only [List.mem_append] at hch
      rcases hch with (h | h) | h
      · simpa using hd2 ch h
      · have : ch = ':' := by simpa using h
        subst this
        decide
      · simpa using hnul ch h
    · simp
  obtain ⟨sp, hs⟩ := Option.isSome_iff_exists.mp hopen
  obtain ⟨a, _, e⟩ := @SendAtCommand_set
    { w with g_payload := decimal port ++ ":".toList ++ s ++ [Char.ofNat 0]
      ++ w.g_payload.drop ((decimal port).length + 1 + s.length + 1) }
    sp AT_SEND (decimal port ++ ":".toList ++ s) (by decide) hs (by
      have : (mnemonic AT_SEND).length = 4 := by decide
      rw [this]
      simp
      omega)
  have hfr : "AT+".toList ++ mnemonic AT_SEND ++ "=".toList ++ (decimal port ++ ":".toList ++ s)
      ++ "\r\n".toList
      = "AT+SEND=".toList ++ decimal port ++ ":".toList ++ s ++ "\r\n".toList := by
    have : "AT+".toList ++ mnemonic AT_SEND ++ "=".toList = "AT+SEND=".toList := by decide
    rw [this]
    simp
  have hrun : (SendString (some s) port w).2
      = afterSend { w with g_payload := decimal port ++ ":".toList ++ s ++ [Char.ofNat 0]
          ++ w.g_payload.drop ((decimal port).length + 1 + s.length + 1) } sp a
        ("AT+SEND=".toList ++ decimal port ++ ":".toList ++ s ++ "\r\n".toList) := by
    unfold SendString
    simp only
    rw [if_neg (by simp only [strnlen, ge_iff_le, hB]; omega)]
    simp only [World.sprintfPayload]
    rw [hw1]
    simp only
    rw [hstr, e, hfr]
  rw [hrun, cmdTx_afterSend, cmdTx_of_some hs]
  refine ⟨rfl, ?_⟩
  unfold afterSend
  rw [fault_delay]

/-! ## Stores that are not checked against the buffer -/

theorem storeArray_fault (w : World) (i : Nat) (c : Char) (h : w.fault = true) :
    (w.storeArray i c).fault = true := by
  unfold World.storeArray
  split_ifs
  · exact h
  · rfl

theorem memcpyArray_fault (cs : List Char) :
    ∀ (w : World) (dst : Nat), w.fault = true → (w.memcpyArray dst cs).fault = true := by
  induction cs with
  | nil => intro w dst h; exact h
  | cons c tl ih => intro w dst h; exact ih _ _ (storeArray_fault w dst c h)

theorem writeCommand_fault (w : World) (n : Nat) (h : w.fault = true) :
    (w.writeCommand n).fault = true := by
  unfold World.writeCommand
  cases w.hSerialCommand with
  | none => rfl
  | some s => exact h

theorem finish_fault (w : World) (index : Nat) (h : w.fault = true) :
    (SendAtCommand.finish w index).2.fault = true := by
  unfold SendAtCommand.finish
  simp only
  rw [fault_delay]
  exact writeCommand_fault _ _ (storeArray_fault _ _ _ (storeArray_fault _ _ _ h))

/-- A fault is never cleared by `SendAtCommand`. -/
theorem SendAtCommand_fault (c : Nat) (t : CommandType_e) (payload : Option (List Char))
    (w : World) (h : w.fault = true) : (SendAtCommand c t payload w).2.fault = true := by
  have h1 : (w.memsetArray.memcpyArray 0 "AT+".toList).fault = true :=
    memcpyArray_fault _ _ _ (show w.memsetArray.fault = true from h)
  have h2 : (((w.memsetArray.memcpyArray 0 "AT+".toList).readTable c).memcpyArray 3
      (mnemonic c)).fault = true := by
    apply memcpyArray_fault
    unfold World.readTable
    split_ifs
    · exact h1
    · rfl
  unfold SendAtCommand
  simp only
  split_ifs
  · exact h
  · exact h1
  · cases t with
    | AtGet => exact finish_fault _ _ (memcpyArray_fault _ _ _ h2)
    | AtSet =>
      apply finish_fault
      cases payload with
      | none => rfl
      | some v =>
        exact storeArray_fault _ _ _ (memcpyArray_fault _ _ _ (storeArray_fault _ _ _ h2))
    | AtRun => exact finish_fault _ _ h2
    | AtInvalid => exact h2

theorem storePayload_fault (w : World) (i : Nat) (c : Char) (h : w.fault = true) :
    (w.storePayload i c).fault = true := by
  unfold World.storePayload
  split_ifs
  · exact h
  · rfl

theorem writePayload_fault (cs : List Char) :
    ∀ (w : World) (dst : Nat), w.fault = true → (w.writePayload dst cs).fault = true := by
  induction cs with
  | nil => intro w dst h; exact h
  | cons c tl ih => intro w dst h; exact ih _ _ (storePayload_fault w dst c h)

/-- Consecutive stores that reach behind `g_payload` are recorded. -/
theorem writePayload_overrun (cs : List Char) :
    ∀ (w : World) (dst : Nat), BUFFER_SIZE < dst + cs.length → dst ≤ BUFFER_SIZE →
      (w.writePayload dst cs).fault = true := by
  induction cs with
  | nil =>
    intro w dst h hd
    simp only [List.length_nil, Nat.add_zero] at h
    omega
  | cons c tl ih =>
    intro w dst h hd
    simp only [List.length_cons] at h
    rw [World.writePayload]
    by_cases hlt : dst < BUFFER_SIZE
    · exact ih _ _ (by omega) (by omega)
    · apply writePayload_fault
      unfold World.storePayload
      rw [if_neg hlt]

/-- The two tests of `SendString`: a `NULL` payload and a payload of 256 characters or more
are turned away with `RAD_ERROR`, the state left as it was. -/
theorem SendString_rejects (port : Nat) (w : World) :
    SendString none port w = (some RAD_ERROR, w) ∧
      ∀ s : List Char, BUFFER_SIZE ≤ s.length →
        SendString (some s) port w = (some RAD_ERROR, w) := by
  refine ⟨rfl, ?_⟩
  intro s hs
  unfold SendString
  simp only
  rw [if_pos]
  simp only [strnlen, ge_iff_le]
  omega

/-! ## Frame encoder: `Get` and `Run` -/

/-- C1: for a valid command id and an open Command port, `SendAtCommand` with `AtGet` makes one
write of exactly `AT+` mnemonic `=?\r\n`, and with `AtRun` one write of exactly `AT+` mnemonic
`\r\n`, whatever the parameter is. -/
theorem SendAtCommand_get_run_frame (c : Nat) (payload : Option (List Char)) (w : World)
    (s : HardwareSerial) (hc : c < NUMBER_OF_COMMANDS) (hs : w.hSerialCommand = some s) :
    cmdTx (SendAtCommand c AtGet payload w).2
        = cmdTx w ++ ["AT+".toList ++ mnemonic c ++ "=?\r\n".toList] ∧
      cmdTx (SendAtCommand c AtRun payload w).2
        = cmdTx w ++ ["AT+".toList ++ mnemonic c ++ "\r\n".toList] := by
  obtain ⟨a, _, hg⟩ := SendAtCommand_get c payload hc hs
  obtain ⟨a', _, hr⟩ := SendAtCommand_run c payload hc hs
  rw [hg, hr, cmdTx_of_some hs]
  simp only [cmdTx_afterSend, and_self]

/-- Witness of C1: the join-status command, as a query and as an action, on the silent world. -/
theorem SendAtCommand_get_run_frame_witness :
    cmdTx (SendAtCommand AT_NJS AtGet none quietWorld).2
        = cmdTx quietWorld ++ ["AT+".toList ++ mnemonic AT_NJS ++ "=?\r\n".toList] ∧
      cmdTx (SendAtCommand AT_NJS AtRun none quietWorld).2
        = cmdTx quietWorld ++ ["AT+".toList ++ mnemonic AT_NJS ++ "\r\n".toList] :=
  SendAtCommand_get_run_frame AT_NJS none quietWorld quietPort (by decide) rfl

/-! ## Frame encoder: `Set` -/

/-- C2, at the failing input: a `Set` frame of exactly 256 bytes (`AT+SEND=`, 246 characters,
`\r\n`) fits the transmit buffer, no store leaves it, and yet the write passes the count 0:
the one write on the Command port carries no byte. -/
theorem SendAtCommand_set_full_buffer_sends_nothing :
    3 + (mnemonic AT_SEND).length + 1 + (List.replicate 246 'A').length + 2 = 256 ∧
      cmdTx (SendAtCommand AT_SEND AtSet (some (List.replicate 246 'A')) quietWorld).2 = [[]] ∧
      (SendAtCommand AT_SEND AtSet (some (List.replicate 246 'A')) quietWorld).2.fault = false := by
  decide!

/-! ## Frame receiver: frames delimited by idle time -/

/-- C3, as amended: a frame of 1 to 255 bytes whose first byte shows within the budget, whose
later bytes each come after at most 18 iterations without a byte, and after which no byte
comes, is received whole by `ReceivePacketCommand` into a buffer with room for it: the status
is `RAD_OK`, the reported size is the number of bytes, and the buffer starts with the bytes in
arrival order, however far the frame reaches beyond the budget. -/
theorem ReceivePacketCommand_frame (frame : List (Nat × Char)) (buf : List Char)
    (size N fuel : Nat) (w : World) (hN : N < 4294967296)
    (hn1 : 1 ≤ frame.length) (hn2 : frame.length ≤ 255)
    (hfirst : ∀ x ∈ frame.head?, x.1 < N) (hgaps : ∀ x ∈ frame.tail, x.1 ≤ 18)
    (hroom : frame.length ≤ buf.length)
    (hfeed : Feeds Port.command w (fun t => (slots frame).getD t none))
    (hfuel : (slots frame).length + 20 ≤ fuel) :
    ∃ r, ReceivePacketCommand (some buf) (some size) N fuel w = some r ∧
      r.status = RAD_OK ∧ r.payloadSize = some frame.length ∧
      r.payload.map (List.take frame.length) = some (frame.map Prod.snd) ∧
      r.world.fault = w.fault := by
  cases frame with
  | nil => simp at hn1
  | cons x rest =>
    obtain ⟨gap, b⟩ := x
    have hC := carries_of_slots ((gap, b) :: rest) _ 19 (Nat.le_refl _) (fun t _ => rfl)
    obtain ⟨r, buf', h1, h2, h3, h4, _, h6, h7, _, _⟩ :=
      ReceivePacket_frame Port.command 0 gap b rest buf size N w _ hfeed hC
        (hfirst (gap, b) (by simp)) hN hgaps (by simpa using hn2) (by simpa using hroom)
    have h1' := ReceivePacket_mono _ _ _ _ _ (fuel - ((slots ((gap, b) :: rest)).length + 20)) _ _ h1
    rw [show (slots ((gap, b) :: rest)).length + 19 + 1 + 0
        + (fuel - ((slots ((gap, b) :: rest)).length + 20)) = fuel by omega] at h1'
    exact ⟨r, h1', h2, by simpa using h3, by simp [h4, h6], h7⟩

/-- Witness of C3: `O`, 18 idle iterations, `K`, with a budget of 3 that ends inside the frame. -/
theorem ReceivePacketCommand_frame_witness :
    ∃ r, ReceivePacketCommand (some (List.replicate 8 ' ')) (some 0) 3 100
        (feedWorld (slots [(2, 'O'), (18, 'K')])) = some r ∧
      r.status = RAD_OK ∧ r.payloadSize = some [(2, 'O'), (18, 'K')].length ∧
      r.payload.map (List.take [(2, 'O'), (18, 'K')].length)
        = some ([(2, 'O'), (18, 'K')].map Prod.snd) ∧
      r.world.fault = (feedWorld (slots [(2, 'O'), (18, 'K')])).fault :=
  ReceivePacketCommand_frame [(2, 'O'), (18, 'K')] (List.replicate 8 ' ') 0 3 100
    (feedWorld (slots [(2, 'O'), (18, 'K')])) (by decide) (by decide) (by decide) (by decide)
    (by decide) (by decide) (feeds_feedWorld _) (by decide)

/-- C3 as stated fails: `O` at the first iteration, 19 iterations without a byte (fewer than
20), then `K`.  The loop leaves after the 19 idle iterations, so the call reports one byte,
and with no amount of fuel does it report two. -/
theorem ReceivePacketCommand_gap_19_splits_frame :
    (∀ x ∈ [(0, 'O'), (19, 'K')].tail, x.1 < 20) ∧
      Feeds Port.command (feedWorld (slots [(0, 'O'), (19, 'K')]))
        (fun t => (slots [(0, 'O'), (19, 'K')]).getD t none) ∧
      (ReceivePacketCommand (some (List.replicate 8 ' ')) (some 0) 1 40
          (feedWorld (slots [(0, 'O'), (19, 'K')]))).map (fun r => (r.status, r.payloadSize))
        = some (RAD_OK, some 1) ∧
      ¬ ∃ fuel r, ReceivePacketCommand (some (List.replicate 8 ' ')) (some 0) 1 fuel
          (feedWorld (slots [(0, 'O'), (19, 'K')])) = some r ∧ r.payloadSize = some 2 := by
  have h40 : (ReceivePacketCommand (some (List.replicate 8 ' ')) (some 0) 1 40
      (feedWorld (slots [(0, 'O'), (19, 'K')]))).map (fun r => (r.status, r.payloadSize))
      = some (RAD_OK, some 1) := by decide!
  refine ⟨by decide, feeds_feedWorld _, h40, ?_⟩
  rintro ⟨fuel, r, hr, hsz⟩
  cases h : ReceivePacketCommand (some (List.replicate 8 ' ')) (some 0) 1 40
      (feedWorld (slots [(0, 'O'), (19, 'K')])) with
  | none => rw [h] at h40; exact absurd h40 (by simp)
  | some r0 =>
    have e := ReceivePacket_fuel_irrelevant hr h
    subst e
    rw [h, Option.map_some', hsz] at h40
    exact absurd h40 (by simp)

/-- C4, as amended: when the bytes of a frame of 1 to 255 bytes start within the budget, each
later byte comes after at most 18 iterations without a byte, and more than 20 iterations
without a byte follow the last one, `ReceivePacketCommand` returns `RAD_OK` with the number of
bytes and the buffer starting with them; it leaves 19 iterations after the last byte, so that
whatever the stream holds from there on is still ahead of the port, not consumed. -/
theorem ReceivePacketCommand_frame_then_gap (frame : List (Nat × Char))
    (sl : Nat → Option Char) (quiet : Nat) (buf : List Char) (size N fuel : Nat) (w : World)
    (hN : N < 4294967296) (hn1 : 1 ≤ frame.length) (hn2 : frame.length ≤ 255)
    (hfirst : ∀ x ∈ frame.head?, x.1 < N) (hgaps : ∀ x ∈ frame.tail, x.1 ≤ 18)
    (hroom : frame.length ≤ buf.length) (hfeed : Feeds Port.command w sl)
    (hframe : ∀ t, t < (slots frame).length + quiet → sl t = (slots frame).getD t none)
    (hquiet : 20 < quiet) (hfuel : (slots frame).length + 20 ≤ fuel) :
    ∃ r, ReceivePacketCommand (some buf) (some size) N fuel w = some r ∧
      r.status = RAD_OK ∧ r.payloadSize = some frame.length ∧
      r.payload.map (List.take frame.length) = some (frame.map Prod.snd) ∧
      r.world.now = w.now + ((slots frame).length + 19) ∧
      Feeds Port.command r.world (fun t => sl (t + ((slots frame).length + 19))) := by
  cases frame with
  | nil => simp at hn1
  | cons x rest =>
    obtain ⟨gap, b⟩ := x
    have hC := carries_of_slots ((gap, b) :: rest) sl quiet (by omega) hframe
    obtain ⟨r, buf', h1, h2, h3, h4, _, h6, _, h8, h9⟩ :=
      ReceivePacket_frame Port.command 0 gap b rest buf size N w sl hfeed hC
        (hfirst (gap, b) (by simp)) hN hgaps (by simpa using hn2) (by simpa using hroom)
    have h1' := ReceivePacket_mono _ _ _ _ _ (fuel - ((slots ((gap, b) :: rest)).length + 20)) _ _ h1
    rw [show (slots ((gap, b) :: rest)).length + 19 + 1 + 0
        + (fuel - ((slots ((gap, b) :: rest)).length + 20)) = fuel by omega] at h1'
    exact ⟨r, h1', h2, by simpa using h3, by simp [h4, h6], h8, h9⟩

/-- Witness of C4: `O`, 5 idle iterations, `K`, 21 idle iterations, then a stray `X`. -/
theorem ReceivePacketCommand_frame_then_gap_witness :
    ∃ r, ReceivePacketCommand (some (List.replicate 8 ' ')) (some 0) 1 100
        (feedWorld (slots [(0, 'O'), (5, 'K')] ++ List.replicate 21 none ++ [some 'X']))
        = some r ∧
      r.status = RAD_OK ∧ r.payloadSize = some [(0, 'O'), (5, 'K')].length ∧
      r.payload.map (List.take [(0, 'O'), (5, 'K')].length)
        = some ([(0, 'O'), (5, 'K')].map Prod.snd) ∧
      r.world.now = (feedWorld (slots [(0, 'O'), (5, 'K')] ++ List.replicate 21 none
        ++ [some 'X'])).now + ((slots [(0, 'O'), (5, 'K')]).length + 19) ∧
      Feeds Port.command r.world
        (fun t => (fun t => (slots [(0, 'O'), (5, 'K')] ++ List.replicate 21 none
          ++ [some 'X']).getD t none) (t + ((slots [(0, 'O'), (5, 'K')]).length + 19))) :=
  ReceivePacketCommand_frame_then_gap [(0, 'O'), (5, 'K')]
    (fun t => (slots [(0, 'O'), (5, 'K')] ++ List.replicate 21 none ++ [some 'X']).getD t none)
    21 (List.replicate 8 ' ') 0 1 100
    (feedWorld (slots [(0, 'O'), (5, 'K')] ++ List.replicate 21 none ++ [some 'X']))
    (by decide) (by decide) (by decide) (by decide) (by decide) (by decide)
    (feeds_feedWorld _) (by decide) (by decide) (by decide)

/-- C4 as stated fails: `O`, 19 iterations without a byte (a gap shorter than the 20 of the
idle window), `K`, then 21 iterations without a byte and a stray `X`.  The call reports the
one byte `O`, and with no amount of fuel does it report the two bytes before the long gap. -/
theorem ReceivePacketCommand_gap_19_before_long_gap :
    (∀ x ∈ [(0, 'O'), (19, 'K')].tail, x.1 < 20) ∧
      (∀ t, t < (slots [(0, 'O'), (19, 'K')]).length + 21 →
        (slots [(0, 'O'), (19, 'K')] ++ List.replicate 21 none ++ [some 'X']).getD t none
          = (slots [(0, 'O'), (19, 'K')]).getD t none) ∧
      (ReceivePacketCommand (some (List.replicate 8 ' ')) (some 0) 1 60
          (feedWorld (slots [(0, 'O'), (19, 'K')] ++ List.replicate 21 none ++ [some 'X']))).map
          (fun r => (r.status, r.payloadSize, r.payload.map (List.take 2)))
        = some (RAD_OK, some 1, some ['O', ' ']) ∧
      ¬ ∃ fuel r, ReceivePacketCommand (some (List.replicate 8 ' ')) (some 0) 1 fuel
          (feedWorld (slots [(0, 'O'), (19, 'K')] ++ List.replicate 21 none ++ [some 'X']))
            = some r ∧ r.payloadSize = some 2 := by
  have h60 : (ReceivePacketCommand (some (List.replicate 8 ' ')) (some 0) 1 60
      (feedWorld (slots [(0, 'O'), (19, 'K')] ++ List.replicate 21 none ++ [some 'X']))).map
      (fun r => (r.status, r.payloadSize, r.payload.map (List.take 2)))
      = some (RAD_OK, some 1, some ['O', ' ']) := by decide!
  refine ⟨by decide, by decide, h60, ?_⟩
  rintro ⟨fuel, r, hr, hsz⟩
  cases h : ReceivePacketCommand (some (List.replicate 8 ' ')) (some 0) 1 60
      (feedWorld (slots [(0, 'O'), (19, 'K')] ++ List.replicate 21 none ++ [some 'X'])) with
  | none => rw [h] at h60; exact absurd h60 (by simp)
  | some r0 =>
    have e := ReceivePacket_fuel_irrelevant hr h
    subst e
    rw [h, Option.map_some', hsz] at h60
    exact absurd h60 (by simp)

/-! ## Frame receiver: timeout -/

/-- C5: with any 32-bit budget `N`, 0 included, on a port where no byte ever shows,
`ReceivePacketCommand` and `ReceivePacketTransp` return `RAD_ERROR` after exactly `N` passes
through the loop, each with its one-millisecond sleep, and leave the caller's size cell and
buffer as they were. -/
theorem ReceivePacket_no_byte_times_out (buf : List Char) (size N fuel : Nat) (w : World)
    (hN : N < 4294967296) (hfuel : N + 1 ≤ fuel) :
    (Feeds Port.command w (fun _ => none) →
      ∃ r, ReceivePacketCommand (some buf) (some size) N fuel w = some r ∧
        r.status = RAD_ERROR ∧ r.payloadSize = some size ∧ r.payload = some buf ∧
        r.world.now = w.now + N) ∧
    (Feeds Port.transp w (fun _ => none) →
      ∃ r, ReceivePacketTransp (some buf) (some size) N fuel w = some r ∧
        r.status = RAD_ERROR ∧ r.payloadSize = some size ∧ r.payload = some buf ∧
        r.world.now = w.now + N) := by
  constructor
  · intro hq
    obtain ⟨w', h1, _, h3, _⟩ := ReceivePacket_timeout Port.command buf size N fuel w hN hq hfuel
    exact ⟨_, h1, rfl, rfl, rfl, h3⟩
  · intro hq
    obtain ⟨w', h1, _, h3, _⟩ := ReceivePacket_timeout Port.transp buf size N fuel w hN hq hfuel
    exact ⟨_, h1, rfl, rfl, rfl, h3⟩

/-- Witness of C5: a budget of 500 on the silent world. -/
theorem ReceivePacket_no_byte_times_out_witness :
    (∃ r, ReceivePacketCommand (some (List.replicate 8 ' ')) (some 7) 500 501 quietWorld = some r ∧
        r.status = RAD_ERROR ∧ r.payloadSize = some 7 ∧ r.payload = some (List.replicate 8 ' ') ∧
        r.world.now = quietWorld.now + 500) ∧
    (∃ r, ReceivePacketTransp (some (List.replicate 8 ' ')) (some 7) 500 501 quietWorld = some r ∧
        r.status = RAD_ERROR ∧ r.payloadSize = some 7 ∧ r.payload = some (List.replicate 8 ' ') ∧
        r.world.now = quietWorld.now + 500) :=
  ⟨(ReceivePacket_no_byte_times_out (List.replicate 8 ' ') 7 500 501 quietWorld (by decide)
      (by decide)).1 (feeds_quietWorld _),
    (ReceivePacket_no_byte_times_out (List.replicate 8 ' ') 7 500 501 quietWorld (by decide)
      (by decide)).2 (feeds_quietWorld _)⟩

/-! ## Join orchestration -/

/-- C6: for a bounded retry count `n` from 1 to 255 and an open Command port, when the `n + 1`
polls of the retry loop and the poll of the `return` all report not joined, `JoinNetwork(n)`
terminates, has written exactly `n` join triggers `AT+JOIN\r\n`, and returns `RAD_ERROR`. -/
theorem JoinNetwork_never_joined (n fuel : Nat) (w : World) (hn1 : 1 ≤ n) (hn2 : n ≤ 255)
    (hopen : w.hSerialCommand.isSome = true)
    (hpolls : ∀ j, j ≤ n → pollStatus fuel j (delay 4000 w) = some RAD_ERROR)
    (hfinal : finalStatus fuel n (delay 4000 w) = some RAD_ERROR)
    (hfuel : n + 1 ≤ fuel) :
    ∃ w', JoinNetwork n fuel w = some (RAD_ERROR, w') ∧
      joinTriggers w' = joinTriggers w + n := by
  obtain ⟨w', h1, h2, _⟩ := JoinNetwork_run n fuel n w RAD_ERROR RAD_ERROR (by omega) hopen
    (fun j hj => hpolls j (by omega)) (Or.inr (Nat.le_refl n)) (hpolls n (Nat.le_refl n))
    (Or.inr ⟨by omega, rfl⟩) hfinal hfuel
  exact ⟨w', h1, h2⟩

/-- Witness of C6: `JoinNetwork(3)` on the silent world issues 3 join triggers and fails. -/
theorem JoinNetwork_never_joined_witness :
    ∃ w', JoinNetwork 3 600 quietWorld = some (RAD_ERROR, w') ∧
      joinTriggers w' = joinTriggers quietWorld + 3 :=
  JoinNetwork_never_joined 3 600 quietWorld (by decide) (by decide) rfl
    (fun j _ => (quiet_status j).1) (quiet_status 3).2 (by decide)

/-- C7: for `JoinNetwork(0)` with an open Command port and every `k ≥ 1`, when the first
`k - 1` polls report not joined and poll `k` and the poll of the `return` behind it report
joined, the call terminates, has written exactly `k - 1` join triggers, and returns
`RAD_OK`. -/
theorem JoinNetwork_unbounded (k fuel : Nat) (w : World) (hk : 1 ≤ k)
    (hopen : w.hSerialCommand.isSome = true)
    (hnot : ∀ j, j + 1 < k → pollStatus fuel j (delay 4000 w) = some RAD_ERROR)
    (hjoined : pollStatus fuel (k - 1) (delay 4000 w) = some RAD_OK)
    (hstill : finalStatus fuel (k - 1) (delay 4000 w) = some RAD_OK)
    (hfuel : k ≤ fuel) :
    ∃ w', JoinNetwork 0 fuel w = some (RAD_OK, w') ∧
      joinTriggers w' = joinTriggers w + (k - 1) := by
  obtain ⟨w', h1, h2, _⟩ := JoinNetwork_run 0 fuel (k - 1) w RAD_OK RAD_OK (by omega) hopen
    (fun j hj => hnot j (by omega)) (Or.inl rfl) hjoined (Or.inl rfl) hstill (by omega)
  exact ⟨w', h1, h2⟩

/-- Witness of C7: joined from the third poll on, `JoinNetwork(0)` issues 2 join triggers. -/
theorem JoinNetwork_unbounded_witness :
    ∃ w', JoinNetwork 0 600 (staleWorld 3) = some (RAD_OK, w') ∧
      joinTriggers w' = joinTriggers (staleWorld 3) + (3 - 1) :=
  JoinNetwork_unbounded 3 600 (staleWorld 3) (by decide) rfl
    (fun j hj => by rw [(stale_status 3 j).1, if_pos hj])
    (by rw [(stale_status 3 (3 - 1)).1]; rfl)
    (by rw [(stale_status 3 (3 - 1)).2]; rfl) (by decide)

/-! ## OTAA configuration -/

/-- C8, at the failing input: with a 47-character key and a 23-character EUI `InitializeOTAA`
reaches its closing brace without a `return`, so it hands back no status; and whatever its
arguments, it never returns `RAD_OK`: the only status it returns is `RAD_ERROR`, exactly for a
`NULL` or wrong-length argument. -/
theorem InitializeOTAA_returns_no_success :
    sampleAppKey.length = 47 ∧ sampleAppEui.length = 23 ∧
      (InitializeOTAA (some sampleAppKey) (some sampleAppEui) quietWorld).1 = none ∧
      (∀ (p_appkey p_appeui : Option (List Char)) (w : World),
        (InitializeOTAA p_appkey p_appeui w).1 ≠ some RAD_OK ∧
        ((InitializeOTAA p_appkey p_appeui w).1 = some RAD_ERROR ↔
          (p_appkey = none ∨ p_appeui = none ∨ strlen p_appkey ≠ 47 ∨ strlen p_appeui ≠ 23))) := by
  refine ⟨by decide, by decide, by decide, ?_⟩
  intro p_appkey p_appeui w
  unfold InitializeOTAA
  cases p_appkey with
  | none => simp
  | some K =>
    cases p_appeui with
    | none => simp
    | some E =>
      simp only [strlen]
      by_cases h : K.length ≠ 47 ∨ E.length ≠ 23
      · rw [if_pos h]; simp [h]
      · rw [if_neg h]; simp [h]

/-- C9: with an open Command port, `InitializeOTAA` with a 47-character key `K` and a
23-character EUI `E` makes exactly three writes, `AT+NJM=1\r\n`, then `AT+APPKEY=` `K` `\r\n`,
then `AT+APPEUI=` `E` `\r\n`; with a `NULL` or wrong-length argument it leaves the world as
it was, so it writes nothing. -/
theorem InitializeOTAA_stream (p_appkey p_appeui : Option (List Char)) (w : World)
    (hopen : w.hSerialCommand.isSome = true) :
    (∀ K E, p_appkey = some K → p_appeui = some E → K.length = 47 → E.length = 23 →
        cmdTx (InitializeOTAA p_appkey p_appeui w).2
          = cmdTx w ++ ["AT+NJM=1\r\n".toList, "AT+APPKEY=".toList ++ K ++ "\r\n".toList,
              "AT+APPEUI=".toList ++ E ++ "\r\n".toList]) ∧
      ((p_appkey = none ∨ p_appeui = none ∨ strlen p_appkey ≠ 47 ∨ strlen p_appeui ≠ 23) →
        (InitializeOTAA p_appkey p_appeui w).2 = w ∧
        cmdTx (InitializeOTAA p_appkey p_appeui w).2 = cmdTx w) := by
  constructor
  · intro K E hK hE hKl hEl
    subst hK hE
    have m1 : (mnemonic AT_NJM).length = 3 := by decide
    have m2 : (mnemonic AT_APPKEY).length = 6 := by decide
    have m3 : (mnemonic AT_APPEUI).length = 6 := by decide
    obtain ⟨t1, o1⟩ := set_then_delay 1000 AT_NJM "1".toList hopen (by decide) (by decide)
    obtain ⟨t2, o2⟩ := set_then_delay 1000 AT_APPKEY K o1 (by decide) (by rw [m2, hKl]; decide)
    obtain ⟨t3, _⟩ := set_then_delay 1000 AT_APPEUI E o2 (by decide) (by rw [m3, hEl]; decide)
    have e1 : "AT+".toList ++ mnemonic AT_NJM ++ "=".toList ++ "1".toList ++ "\r\n".toList
        = "AT+NJM=1\r\n".toList := by decide
    have e2 : "AT+".toList ++ mnemonic AT_APPKEY ++ "=".toList = "AT+APPKEY=".toList := by decide
    have e3 : "AT+".toList ++ mnemonic AT_APPEUI ++ "=".toList = "AT+APPEUI=".toList := by decide
    rw [e1] at t1
    rw [e2] at t2
    rw [e3] at t3
    unfold InitializeOTAA
    simp only
    rw [if_neg (by simp [hKl, hEl])]
    simp only [t3, t2, t1, List.append_assoc, List.cons_append, List.nil_append]
  · intro h
    have hw : (InitializeOTAA p_appkey p_appeui w).2 = w := by
      unfold InitializeOTAA
      cases p_appkey with
      | none => rfl
      | some K =>
        cases p_appeui with
        | none => rfl
        | some E =>
          simp only [strlen] at h
          simp only
          rw [if_pos (by simpa using h)]
    exact ⟨hw, by rw [hw]⟩

/-- Witness of C9: a key and an EUI in the format of the modem, and a `NULL` key, on the
silent world. -/
theorem InitializeOTAA_stream_witness :
    (cmdTx (InitializeOTAA (some sampleAppKey) (some sampleAppEui) quietWorld).2
        = cmdTx quietWorld ++ ["AT+NJM=1\r\n".toList,
            "AT+APPKEY=".toList ++ sampleAppKey ++ "\r\n".toList,
            "AT+APPEUI=".toList ++ sampleAppEui ++ "\r\n".toList]) ∧
      cmdTx (InitializeOTAA none (some sampleAppEui) quietWorld).2 = cmdTx quietWorld :=
  ⟨(InitializeOTAA_stream (some sampleAppKey) (some sampleAppEui) quietWorld rfl).1
      sampleAppKey sampleAppEui rfl rfl (by decide) (by decide),
    ((InitializeOTAA_stream none (some sampleAppEui) quietWorld rfl).2 (Or.inl rfl)).2⟩

/-! ## Join status -/

/-- C10, at the failing input: on a silent Command port the status receive of `IsJoined` times
out and leaves `response` as the stack had it; where the stack holds a stale `1`, `IsJoined`
returns `RAD_OK` although no byte was received. -/
theorem IsJoined_timeout_reports_joined :
    Silent (staleWorld 0) ∧ (staleWorld 0).stack (staleWorld 0).frames 0 = '1' ∧
      (∃ w', IsJoined 501 (staleWorld 0) = some (RAD_OK, w')) := by
  refine ⟨silent_staleWorld 0, rfl, ?_⟩
  obtain ⟨w', h, _⟩ := @IsJoined_silent 501 (staleWorld 0) (silent_staleWorld 0) (Nat.le_refl _)
  exact ⟨w', by rw [h]; rfl⟩

/-! ## Frame encoder: rejected calls -/

/-- C11: for every command id, valid or not, `SendAtCommand(id, AtSet, NULL)` returns
`RAD_ERROR` and leaves the whole state as it was, so no byte is written on the Command
port. -/
theorem SendAtCommand_set_null (c : Nat) (w : World) :
    SendAtCommand c AtSet none w = (some RAD_ERROR, w) ∧
      cmdTx (SendAtCommand c AtSet none w).2 = cmdTx w := by
  have h : SendAtCommand c AtSet none w = (some RAD_ERROR, w) := by
    unfold SendAtCommand
    simp
  exact ⟨h, by rw [h]⟩

/-- C12: for a command id at or beyond `NUMBER_OF_COMMANDS`, whatever the command type and the
parameter, `SendAtCommand` returns `RAD_ERROR` and makes no write on the Command port.  It
never reads `str_at_commands[command]`: that read, at such an id, lies outside the table and
sets `fault`, whereas the call leaves `fault` as it was, and the state it leaves is the one it
was given (`Set` with `NULL`) or that state with the transmit buffer cleared and `AT+` stored
in it. -/
theorem SendAtCommand_out_of_range (c : Nat) (t : CommandType_e) (payload : Option (List Char))
    (w : World) (hc : NUMBER_OF_COMMANDS ≤ c) :
    (SendAtCommand c t payload w).1 = some RAD_ERROR ∧
      (SendAtCommand c t payload w).2
        = (if payload.isNone ∧ t = AtSet then w
            else w.memsetArray.memcpyArray 0 "AT+".toList) ∧
      cmdTx (SendAtCommand c t payload w).2 = cmdTx w ∧
      (SendAtCommand c t payload w).2.fault = w.fault ∧
      (w.readTable c).fault = true := by
  have b1 := (Built.memset w).memcpy "AT+".toList (by decide)
  simp only [List.nil_append, List.length_nil] at b1
  have hcmd : (w.memsetArray.memcpyArray 0 "AT+".toList).hSerialCommand = w.hSerialCommand := by
    have := congrArg World.hSerialCommand b1.rest
    exact this
  have hfault : (w.memsetArray.memcpyArray 0 "AT+".toList).fault = w.fault := by
    have := congrArg World.fault b1.rest
    exact this
  have hread : (w.readTable c).fault = true := by
    unfold World.readTable
    rw [if_neg (show ¬ c < str_at_commands.length from Nat.not_lt.mpr hc)]
  by_cases h : payload.isNone ∧ t = AtSet
  · have e : SendAtCommand c t payload w = (some RAD_ERROR, w) := by
      unfold SendAtCommand
      rw [if_pos (by simpa using h)]
    rw [e, if_pos h]
    exact ⟨rfl, rfl, rfl, rfl, hread⟩
  · have e : SendAtCommand c t payload w
        = (some RAD_ERROR, w.memsetArray.memcpyArray 0 "AT+".toList) := by
      unfold SendAtCommand
      rw [if_neg (by simpa using h)]
      simp only
      rw [if_pos hc]
    rw [e, if_neg h]
    exact ⟨rfl, rfl, by simp only [cmdTx, hcmd], hfault, hread⟩

/-- Witness of C12: the first id behind the catalog, as a query, on the silent world. -/
theorem SendAtCommand_out_of_range_witness :
    (SendAtCommand 37 AtGet none quietWorld).1 = some RAD_ERROR ∧
      (SendAtCommand 37 AtGet none quietWorld).2
        = (if (none : Option (List Char)).isNone ∧ AtGet = AtSet then quietWorld
            else quietWorld.memsetArray.memcpyArray 0 "AT+".toList) ∧
      cmdTx (SendAtCommand 37 AtGet none quietWorld).2 = cmdTx quietWorld ∧
      (SendAtCommand 37 AtGet none quietWorld).2.fault = quietWorld.fault ∧
      (quietWorld.readTable 37).fault = true :=
  SendAtCommand_out_of_range 37 AtGet none quietWorld (by decide)

/-! ## Data sender -/

/-- C13, at the failing inputs: a payload of 255 characters, one short of the capacity, passes
the length test of `SendString` for every port and in every state, and the `sprintf` that
follows stores at least 257 bytes into the 256-byte `g_payload`: the call does not accept the
payload, it leaves defined behaviour. -/
theorem SendString_accepted_255_overruns (s : List Char) (port : Nat) (w : World)
    (hs : s.length = 255) :
    strnlen s BUFFER_SIZE < BUFFER_SIZE ∧
      (w.sprintfPayload port s).fault = true ∧
      (SendString (some s) port w).2.fault = true := by
  have hB : BUFFER_SIZE = 256 := rfl
  have hcheck : strnlen s BUFFER_SIZE < BUFFER_SIZE := by
    simp only [strnlen, hs, hB]
    omega
  have hover : (w.sprintfPayload port s).fault = true := by
    unfold World.sprintfPayload
    apply writePayload_overrun
    · have hcolon : ":".toList.length = 1 := rfl
      simp only [List.length_append, List.length_singleton, hs, hB, hcolon]
      omega
    · omega
  refine ⟨hcheck, hover, ?_⟩
  unfold SendString
  simp only
  rw [if_neg (by omega)]
  exact SendAtCommand_fault _ _ _ _ hover

/-- Witness of C13: 255 times `A` on port 1, on the silent world. -/
theorem SendString_accepted_255_overruns_witness :
    strnlen (List.replicate 255 'A') BUFFER_SIZE < BUFFER_SIZE ∧
      (quietWorld.sprintfPayload 1 (List.replicate 255 'A')).fault = true ∧
      (SendString (some (List.replicate 255 'A')) 1 quietWorld).2.fault = true :=
  SendString_accepted_255_overruns (List.replicate 255 'A') 1 quietWorld
    (List.length_replicate 255 'A')

/-- C14, at the failing input: for the accepted payload of 255 characters on port 1 the
`sprintf` stores past the end of `g_payload`, so the run leaves defined behaviour, and what
goes out on the Command port is not the frame `AT+SEND=1:` payload `\r\n`. -/
theorem SendString_long_payload_overruns :
    (List.replicate 255 'A').length < 256 ∧
      (quietWorld.sprintfPayload 1 (List.replicate 255 'A')).fault = true ∧
      (SendString (some (List.replicate 255 'A')) 1 quietWorld).2.fault = true ∧
      cmdTx (SendString (some (List.replicate 255 'A')) 1 quietWorld).2
        ≠ ["AT+SEND=".toList ++ decimal 1 ++ ":".toList ++ List.replicate 255 'A'
            ++ "\r\n".toList] := by
  decide!

/-! ## Frame encoder: frames longer than the buffer -/

/-- C16: `IsJoined` empties the receive FIFO of the Command port before it sends its query, so
two calls in states that differ only in the bytes pending there do the same: they end or not
together, and when they end they return the same status and leave the same state, with the
same writes on the Command port. -/
theorem IsJoined_ignores_pending (fuel : Nat) (w : World) (s : HardwareSerial)
    (pending1 pending2 : List Char) :
    IsJoined fuel { w with hSerialCommand := some { s with rx := pending1 } }
        = IsJoined fuel { w with hSerialCommand := some { s with rx := pending2 } } ∧
      (IsJoined fuel { w with hSerialCommand := some { s with rx := pending1 } }).map
          (fun r => (r.1, cmdTx r.2))
        = (IsJoined fuel { w with hSerialCommand := some { s with rx := pending2 } }).map
          (fun r => (r.1, cmdTx r.2)) := by
  have hflush : ∀ pending : List Char,
      SerialFlush Port.command
          { w with frames := w.frames + 1, hSerialCommand := some { s with rx := pending } }
        = { w with frames := w.frames + 1, hSerialCommand := some { s with rx := [] } } := by
    intro pending
    simp [SerialFlush, World.port, World.setPort, flush_loop_nil]
  have h : IsJoined fuel { w with hSerialCommand := some { s with rx := pending1 } }
      = IsJoined fuel { w with hSerialCommand := some { s with rx := pending2 } } := by
    unfold IsJoined
    simp only [hflush]
  exact ⟨h, by rw [h]⟩

/-! ## Frame receiver: the reported count -/

/-- C17 as stated fails at 256 bytes: with a budget of 256 and 256 bytes on consecutive
iterations, the counter `i` is back at 0 when the budget is used up, and the call returns
`RAD_ERROR` without writing the size; with no amount of fuel does it return `RAD_OK`. -/
theorem ReceivePacketCommand_256_bytes_time_out :
    (ReceivePacketCommand (some (List.replicate 256 ' ')) (some 7) 256 300
          (feedWorld ((List.replicate 256 'A').map some))).map
          (fun r => (r.status, r.payloadSize))
        = some (RAD_ERROR, some 7) ∧
      ¬ ∃ fuel r, ReceivePacketCommand (some (List.replicate 256 ' ')) (some 7) 256 fuel
          (feedWorld ((List.replicate 256 'A').map some)) = some r ∧ r.status = RAD_OK := by
  have h300 : (ReceivePacketCommand (some (List.replicate 256 ' ')) (some 7) 256 300
      (feedWorld ((List.replicate 256 'A').map some))).map (fun r => (r.status, r.payloadSize))
      = some (RAD_ERROR, some 7) := by decide!
  refine ⟨h300, ?_⟩
  rintro ⟨fuel, r, hr, hst⟩
  cases h : ReceivePacketCommand (some (List.replicate 256 ' ')) (some 7) 256 300
      (feedWorld ((List.replicate 256 'A').map some)) with
  | none => rw [h] at h300; exact absurd h300 (by simp)
  | some r0 =>
    have e := ReceivePacket_fuel_irrelevant hr h
    subst e
    rw [h, Option.map_some', hst] at h300
    exact absurd h300 (by simp)

/-- C17, as amended: for 1 to 255 bytes that show on consecutive iterations from the first one
on, with none behind them, any budget of at least 1 and a buffer with room for them,
`ReceivePacketCommand` returns `RAD_OK` and reports the number of bytes. -/
theorem ReceivePacketCommand_consecutive (bytes buf : List Char) (size N fuel : Nat) (w : World)
    (hN1 : 1 ≤ N) (hN : N < 4294967296) (hn1 : 1 ≤ bytes.length) (hn2 : bytes.length ≤ 255)
    (hroom : bytes.length ≤ buf.length)
    (hfeed : Feeds Port.command w (fun t => bytes[t]?))
    (hfuel : bytes.length + 20 ≤ fuel) :
    ∃ r, ReceivePacketCommand (some buf) (some size) N fuel w = some r ∧
      r.status = RAD_OK ∧ r.payloadSize = some bytes.length := by
  cases bytes with
  | nil => simp at hn1
  | cons b rest =>
    have hC := carries_consecutive (b :: rest) _ (fun _ => rfl)
    have hl := slots_consecutive (b :: rest)
    simp only [List.map_cons, List.length_cons] at hC hl hn2 hroom hfuel
    obtain ⟨r, buf', h1, h2, h3, _⟩ :=
      ReceivePacket_frame Port.command 0 0 b (rest.map (fun b => (0, b))) buf size N w _ hfeed hC
        (by omega) hN (fun x hx => by
          obtain ⟨y, _, hy⟩ := List.mem_map.mp hx
          rw [← hy]
          exact Nat.zero_le 18) (by simpa using hn2) (by simpa using hroom)
    have h1' := ReceivePacket_mono _ _ _ _ _ (fuel - (rest.length + 1 + 20)) _ _ h1
    rw [hl, show rest.length + 1 + 19 + 1 + 0 + (fuel - (rest.length + 1 + 20)) = fuel by omega]
      at h1'
    exact ⟨r, h1', h2, by simpa using h3⟩

/-- Witness of C17: the three bytes `+OK` with a budget of 1. -/
theorem ReceivePacketCommand_consecutive_witness :
    ∃ r, ReceivePacketCommand (some (List.replicate 8 ' ')) (some 0) 1 100
        (feedWorld (['+', 'O', 'K'].map some)) = some r ∧
      r.status = RAD_OK ∧ r.payloadSize = some ['+', 'O', 'K'].length :=
  ReceivePacketCommand_consecutive ['+', 'O', 'K'] (List.replicate 8 ' ') 0 1 100
    (feedWorld (['+', 'O', 'K'].map some)) (by decide) (by decide) (by decide) (by decide)
    (by decide)
    (feeds_bytes _) (by decide)

/-- C18: when `ReceivePacketCommand`, called with non-`NULL` arguments and an open Command
port, returns, its loop has ended in a state `st` such that the status is `RAD_ERROR` exactly
when the byte counter `st.i` is 0, a status `RAD_OK` comes with the reported size `st.i` of at
least 1, and the counter is never 0 with budget left. -/
theorem ReceivePacketCommand_status_and_count (buf : List Char) (size N fuel : Nat) (w : World)
    (r : RxResult) (hopen : w.hSerialCommand.isSome = true)
    (h : ReceivePacketCommand (some buf) (some size) N fuel w = some r) :
    ∃ st, rxLoop Port.command fuel ⟨N, 0, 20, buf, w⟩ = some st ∧
      (r.status = RAD_ERROR ↔ st.i = 0) ∧
      (r.status = RAD_OK → r.payloadSize = some st.i ∧ 1 ≤ st.i) ∧
      ¬ (st.i = 0 ∧ st.timeout ≠ 0) := by
  obtain ⟨s, hs⟩ := Option.isSome_iff_exists.mp hopen
  unfold ReceivePacketCommand ReceivePacket at h
  simp only [World.port, hs] at h
  cases hl : rxLoop Port.command fuel ⟨N, 0, 20, buf, w⟩ with
  | none => simp [hl] at h
  | some st =>
    obtain ⟨hc, hinv⟩ := rxLoop_counter_zero Port.command fuel _ st hl (fun _ => rfl)
    have hzero : st.i = 0 → st.timeout = 0 := by
      intro h0
      have hw := hinv h0
      simp only [rxCond, h0, hw] at hc
      simpa using hc
    simp only [hl] at h
    refine ⟨st, rfl, ?_, ?_, fun hh => hh.2 (hzero hh.1)⟩
    · by_cases h0 : st.i = 0
      · rw [if_pos ⟨hzero h0, h0⟩] at h
        cases h
        exact ⟨fun _ => h0, fun _ => rfl⟩
      · rw [if_neg (fun hh => h0 hh.2)] at h
        cases h
        exact ⟨fun hh => by simp at hh, fun hh => absurd hh h0⟩
    · intro hok
      by_cases h0 : st.i = 0
      · rw [if_pos ⟨hzero h0, h0⟩] at h
        cases h
        simp at hok
      · rw [if_neg (fun hh => h0 hh.2)] at h
        cases h
        exact ⟨rfl, by omega⟩

/-- Witness of C18: a budget of 500 on the silent world, where the call ends in a timeout. -/
theorem ReceivePacketCommand_status_and_count_witness :
    ∃ r st, ReceivePacketCommand (some (List.replicate 8 ' ')) (some 7) 500 501 quietWorld
        = some r ∧
      rxLoop Port.command 501 ⟨500, 0, 20, List.replicate 8 ' ', quietWorld⟩ = some st ∧
      (r.status = RAD_ERROR ↔ st.i = 0) ∧
      (r.status = RAD_OK → r.payloadSize = some st.i ∧ 1 ≤ st.i) ∧
      ¬ (st.i = 0 ∧ st.timeout ≠ 0) := by
  obtain ⟨w', h, _⟩ := ReceivePacket_timeout Port.command (List.replicate 8 ' ') 7 500 501
    quietWorld (by decide) (feeds_quietWorld _) (by decide)
  obtain ⟨st, h1, h2, h3, h4⟩ :=
    ReceivePacketCommand_status_and_count (List.replicate 8 ' ') 7 500 501 quietWorld _ rfl h
  exact ⟨_, st, h, h1, h2, h3, h4⟩

/-! ## Join orchestration: the poll of the `return` -/

/-- C19: for a bounded retry count `n` from 1 to 255, an open Command port and `k ≥ 1`, when
the polls that `JoinNetwork(n)` makes report not joined before poll `k` and joined from poll
`k` on, the call writes exactly `min (k - 1) n` join triggers and `min k (n + 1) + 1` status
queries, and it returns `RAD_OK` exactly when `k ≤ n + 2`: the status returned is that of the
poll made behind the loop, one poll after the one that ended it. -/
theorem JoinNetwork_extra_poll (n k fuel : Nat) (w : World) (hn1 : 1 ≤ n) (hn2 : n ≤ 255)
    (hk : 1 ≤ k) (hopen : w.hSerialCommand.isSome = true)
    (hloop : ∀ j, j ≤ min (k - 1) n →
      pollStatus fuel j (delay 4000 w) = some (if j + 1 < k then RAD_ERROR else RAD_OK))
    (hret : finalStatus fuel (min (k - 1) n) (delay 4000 w)
      = some (if min (k - 1) n + 2 < k then RAD_ERROR else RAD_OK))
    (hfuel : n + 1 ≤ fuel) :
    ∃ st w', JoinNetwork n fuel w = some (st, w') ∧
      joinTriggers w' = joinTriggers w + min (k - 1) n ∧
      statusPolls w' = statusPolls w + (min k (n + 1) + 1) ∧
      (st = RAD_OK ↔ k ≤ n + 2) := by
  have hm1 : min (k - 1) n ≤ n := Nat.min_le_right _ _
  have hm2 : min (k - 1) n ≤ k - 1 := Nat.min_le_left _ _
  have hm3 : min (k - 1) n = k - 1 ∨ min (k - 1) n = n := by
    rcases Nat.le_total (k - 1) n with h | h
    · exact Or.inl (Nat.min_eq_left h)
    · exact Or.inr (Nat.min_eq_right h)
  have hm4 : min k (n + 1) + 1 = min (k - 1) n + 2 := by
    rcases Nat.le_total k (n + 1) with h | h
    · rw [Nat.min_eq_left h, Nat.min_eq_left (by omega)]; omega
    · rw [Nat.min_eq_right h, Nat.min_eq_right (by omega)]
  obtain ⟨w', h1, h2, h3⟩ := JoinNetwork_run n fuel (min (k - 1) n) w
    (if min (k - 1) n + 1 < k then RAD_ERROR else RAD_OK)
    (if min (k - 1) n + 2 < k then RAD_ERROR else RAD_OK) (by omega) hopen
    (fun j hj => by rw [hloop j (by omega), if_pos (by omega)]) (Or.inr hm1)
    (hloop _ (Nat.le_refl _))
    (by
      by_cases hlt : min (k - 1) n + 1 < k
      · exact Or.inr ⟨by omega, by omega⟩
      · exact Or.inl (if_neg hlt))
    hret (by omega)
  refine ⟨_, w', h1, h2, by rw [h3, hm4], ?_⟩
  by_cases hlt : min (k - 1) n + 2 < k
  · rw [if_pos hlt]
    constructor
    · intro h; cases h
    · intro h; omega
  · rw [if_neg hlt]
    constructor
    · intro _; omega
    · intro _; rfl

/-- Witness of C19: `JoinNetwork(2)` with the modem joined from poll 4 on: the third poll ends
the loop not joined, and the poll of the `return` reports joined. -/
theorem JoinNetwork_extra_poll_witness :
    ∃ st w', JoinNetwork 2 600 (staleWorld 4) = some (st, w') ∧
      joinTriggers w' = joinTriggers (staleWorld 4) + min (4 - 1) 2 ∧
      statusPolls w' = statusPolls (staleWorld 4) + (min 4 (2 + 1) + 1) ∧
      (st = RAD_OK ↔ 4 ≤ 2 + 2) :=
  JoinNetwork_extra_poll 2 4 600 (staleWorld 4) (by decide) (by decide) (by decide) rfl
    (fun j _ => (stale_status 4 j).1) (stale_status 4 2).2 (by decide)

/-! ## Frame encoder: the command in the frame -/

/-- C20, at the failing input: the `Set` frames `AT+SEND=` with 246 characters and `AT+SENDB=`
with 245 characters both have exactly 256 bytes, the buffer capacity; for both the write goes
out with the count 0, so two different commands write the same (empty) byte sequence. -/
theorem SendAtCommand_full_frames_collide :
    AT_SEND < NUMBER_OF_COMMANDS ∧ AT_SENDB < NUMBER_OF_COMMANDS ∧ AT_SEND ≠ AT_SENDB ∧
      (atFrame AT_SEND AtSet (some (List.replicate 246 'A'))).length = 256 ∧
      (atFrame AT_SENDB AtSet (some (List.replicate 245 'A'))).length = 256 ∧
      cmdTx (SendAtCommand AT_SEND AtSet (some (List.replicate 246 'A')) quietWorld).2
        = cmdTx (SendAtCommand AT_SENDB AtSet (some (List.replicate 245 'A')) quietWorld).2 := by
  decide!

end LoRaWAN
